import Mathlib

/-!
Verification of the leaderboard-scraper-template badge/aggregate core.

The development shallowly embeds the code of `src/lib/db.ts`,
`src/scripts/pre-build.ts` and the import script: database tables become
association lists keyed the way the SQL `ON CONFLICT` clauses key them,
JavaScript `Date` values become `Option Nat` (epoch milliseconds, `none`
standing for an Invalid Date), floating point metric values become `ℚ`,
and the fallible serialization steps (`toISOString` on an invalid date
throws) become `Option`-returning functions.
-/

/-! ## Model of the JavaScript runtime primitives used by the code -/

/-- Milliseconds per day. -/
def msPerDay : Nat := 86400000

/-- Left-pad the decimal representation of `n` with zeros to width `w`
(used to model the fixed-width fields of `Date.prototype.toISOString`). -/
def padNum (w n : Nat) : String :=
  let s := toString n
  if s.length < w then String.mk (List.replicate (w - s.length) '0') ++ s else s

/-- Gregorian leap year test. -/
def isLeapYear (y : Nat) : Bool :=
  decide ((y % 4 = 0 ∧ y % 100 ≠ 0) ∨ y % 400 = 0)

/-- Days in a month of the proleptic Gregorian calendar. -/
def daysInMonth (y m : Nat) : Nat :=
  if m = 1 ∨ m = 3 ∨ m = 5 ∨ m = 7 ∨ m = 8 ∨ m = 10 ∨ m = 12 then 31
  else if m = 2 then (if isLeapYear y then 29 else 28)
  else 30

/-- Civil date of a day count since the Unix epoch (valid for days since
1970-01-01, which covers every date this pipeline handles). -/
def civilFromDays (z0 : Nat) : Nat × Nat × Nat :=
  let z := z0 + 719468
  let era := z / 146097
  let doe := z % 146097
  let yoe := (doe - doe / 1460 + doe / 36524 - doe / 146096) / 365
  let y := yoe + era * 400
  let doy := doe - (365 * yoe + yoe / 4 - yoe / 100)
  let mp := (5 * doy + 2) / 153
  let d := doy - (153 * mp + 2) / 5 + 1
  let m := if mp < 10 then mp + 3 else mp - 9
  (if m ≤ 2 then y + 1 else y, m, d)

/-- Day count since the Unix epoch of a civil date (valid for dates from
1970-01-01 on, which covers every date this pipeline handles). -/
def daysFromCivil (y m d : Nat) : Nat :=
  let yy := if m ≤ 2 then y - 1 else y
  let era := yy / 400
  let yoe := yy % 400
  let mp := if m > 2 then m - 3 else m + 9
  let doy := (153 * mp + 2) / 5 + d - 1
  let doe := yoe * 365 + yoe / 4 - yoe / 100 + doy
  era * 146097 + doe - 719468

/-- Epoch milliseconds of midnight UTC of a civil date. -/
def epochMsOfYmd (y m d : Nat) : Nat :=
  daysFromCivil y m d * msPerDay

/-- The date part of `Date.prototype.toISOString`, i.e. the result of
`date.toISOString().split("T")[0]` used when storing badge awards. -/
def toISODateOnly (ms : Nat) : String :=
  let c := civilFromDays (ms / msPerDay)
  padNum 4 c.1 ++ "-" ++ padNum 2 c.2.1 ++ "-" ++ padNum 2 c.2.2

/-- `Date.prototype.toISOString` on a valid date (epoch milliseconds),
used when storing activities. -/
def toISOFull (ms : Nat) : String :=
  let rem := ms % msPerDay
  toISODateOnly ms ++ "T" ++ padNum 2 (rem / 3600000) ++ ":" ++
    padNum 2 (rem % 3600000 / 60000) ++ ":" ++ padNum 2 (rem % 60000 / 1000) ++
    "." ++ padNum 3 (rem % 1000) ++ "Z"

/-- A JavaScript `Date` value: `some` epoch milliseconds when valid,
`none` for an Invalid Date (whose `toISOString` throws). -/
abbrev JSDate := Option Nat

/-- Decimal value of a digit character. -/
def digitVal (c : Char) : Nat := c.toNat - 48

/-- Decimal value of a digit string. -/
def digitsToNat (cs : List Char) : Nat :=
  cs.foldl (fun a c => a * 10 + digitVal c) 0

/-- Parse an unsigned decimal literal (`"12"`, `"12.5"`, `".5"`, `"12."`),
the shapes `Number(...)` accepts for plain decimals; anything else is NaN. -/
def parseUnsignedNumber (cs : List Char) : Option ℚ :=
  let ip := cs.takeWhile Char.isDigit
  let rest := cs.dropWhile Char.isDigit
  match rest with
  | [] => if ip.isEmpty then none else some ((digitsToNat ip : ℚ))
  | c :: fr =>
    if c = '.' ∧ fr.all Char.isDigit ∧ 0 < ip.length + fr.length then
      some ((digitsToNat ip : ℚ) + (digitsToNat fr : ℚ) / ((10 : ℚ) ^ fr.length))
    else none

/-- The whitespace trimming `Number(string)` performs before parsing. -/
def trimChars (cs : List Char) : List Char :=
  ((cs.dropWhile Char.isWhitespace).reverse.dropWhile Char.isWhitespace).reverse

/-- Model of the JavaScript `Number(string)` conversion used by the
aggregation pass, returning `none` for NaN. It covers the plain decimal
forms (with optional sign and surrounding whitespace, the empty string
converting to `0`); exotic accepted forms such as hex or exponent
notation are not needed by this pipeline and map to NaN here. -/
def jsNumber (s : String) : Option ℚ :=
  let cs := trimChars s.toList
  match cs with
  | [] => some 0
  | '-' :: rest => (parseUnsignedNumber rest).map (fun q => -q)
  | '+' :: rest => parseUnsignedNumber rest
  | _ => parseUnsignedNumber cs

/-- Range check for a civil date as `new Date("YYYY-MM-DD")` performs it
(out-of-range month or day yields an Invalid Date). The model is
restricted to years from 1970 on, which covers this pipeline's data. -/
def validYmd (y m d : Nat) : Bool :=
  decide (1 ≤ m ∧ m ≤ 12 ∧ 1 ≤ d ∧ d ≤ daysInMonth y m ∧ 1970 ≤ y)

/-- Model of the JavaScript `new Date(string)` constructor on the two ISO
shapes this pipeline serializes (`YYYY-MM-DD` for badge award dates and
`YYYY-MM-DDTHH:MM:SS.sssZ` for activity timestamps); any other string is
an Invalid Date (`none`). -/
def jsNewDate (s : String) : JSDate :=
  match s.toList with
  | [y1, y2, y3, y4, '-', m1, m2, '-', d1, d2] =>
    if ([y1, y2, y3, y4, m1, m2, d1, d2].all Char.isDigit) then
      let y := digitsToNat [y1, y2, y3, y4]
      let m := digitsToNat [m1, m2]
      let d := digitsToNat [d1, d2]
      if validYmd y m d then some (epochMsOfYmd y m d) else none
    else none
  | [y1, y2, y3, y4, '-', m1, m2, '-', d1, d2, 'T',
     h1, h2, ':', n1, n2, ':', e1, e2, '.', f1, f2, f3, 'Z'] =>
    if ([y1, y2, y3, y4, m1, m2, d1, d2, h1, h2, n1, n2, e1, e2, f1, f2, f3].all
        Char.isDigit) then
      let y := digitsToNat [y1, y2, y3, y4]
      let m := digitsToNat [m1, m2]
      let d := digitsToNat [d1, d2]
      let hh := digitsToNat [h1, h2]
      let mi := digitsToNat [n1, n2]
      let ss := digitsToNat [e1, e2]
      let ff := digitsToNat [f1, f2, f3]
      if validYmd y m d ∧ hh < 24 ∧ mi < 60 ∧ ss < 60 then
        some (epochMsOfYmd y m d + ((hh * 60 + mi) * 60 + ss) * 1000 + ff)
      else none
    else none
  | _ => none

/-- JavaScript `Math.round`: round to the nearest integer, halves toward
positive infinity (`Math.round (x) = ⌊x + 1/2⌋`). -/
def mathRound (q : ℚ) : ℤ := ⌊q + 1 / 2⌋

/-! ## `batchArray` (src/lib/db.ts, lines 62-68)

```
function batchArray<T>(array: T[], batchSize: number): T[][] {
  const result = [];
  for (let i = 0; i < array.length; i += batchSize) {
    result.push(array.slice(i, i + batchSize));
  }
  return result;
}
```
For `batchSize = 0` and a non-empty array the JavaScript loop never
terminates; the model returns `[]` there, a case no call site reaches
(every caller passes a positive constant). The recursion is fuelled by
the array length (one chunk is emitted per step and a positive batch
size yields at most `l.length` chunks), keeping it structural. -/
def batchArrayAux (n : Nat) : Nat → List α → List (List α)
  | _, [] => []
  | 0, _ => []
  | fuel + 1, l =>
    if n = 0 then [] else l.take n :: batchArrayAux n fuel (l.drop n)

def batchArray (l : List α) (n : Nat) : List (List α) :=
  batchArrayAux n l.length l

theorem batchArrayAux_fuel (n : Nat) (hn : n ≠ 0) :
    ∀ (fuel : Nat) (l : List α), l.length ≤ fuel →
      batchArrayAux n fuel l = batchArrayAux n l.length l := by
  intro fuel
  induction fuel using Nat.strong_induction_on with
  | _ fuel ih =>
    intro l hl
    cases l with
    | nil => cases fuel <;> rfl
    | cons a t =>
      cases fuel with
      | zero => simp at hl
      | succ f =>
        have hf : t.length ≤ f := by
          simp only [List.length_cons] at hl
          omega
        show (if n = 0 then []
              else (a :: t).take n :: batchArrayAux n f ((a :: t).drop n)) =
          (if n = 0 then []
           else (a :: t).take n :: batchArrayAux n t.length ((a :: t).drop n))
        rw [if_neg hn, if_neg hn]
        have h1 : ((a :: t).drop n).length ≤ f := by
          simp only [List.length_drop, List.length_cons]
          omega
        have h2 : ((a :: t).drop n).length ≤ t.length := by
          simp only [List.length_drop, List.length_cons]
          omega
        rw [ih f (Nat.lt_succ_self f) _ h1, ih t.length (by omega) _ h2]

theorem batchArray_nil (n : Nat) : batchArray ([] : List α) n = [] := rfl

theorem batchArray_cons_eq (l : List α) (n : Nat) (hl : l ≠ []) (hn : n ≠ 0) :
    batchArray l n = l.take n :: batchArray (l.drop n) n := by
  cases l with
  | nil => exact absurd rfl hl
  | cons a t =>
    show (if n = 0 then []
          else (a :: t).take n :: batchArrayAux n t.length ((a :: t).drop n)) =
      (a :: t).take n :: batchArray ((a :: t).drop n) n
    rw [if_neg hn]
    unfold batchArray
    rw [batchArrayAux_fuel n hn t.length _
          (by simp only [List.length_drop, List.length_cons]; omega)]

theorem batchArray_join (l : List α) (n : Nat) (hn : n ≠ 0) :
    (batchArray l n).flatten = l := by
  by_cases hl : l = []
  · subst hl
    simp [batchArray_nil]
  · rw [batchArray_cons_eq l n hl hn]
    have hlt : (l.drop n).length < l.length := by
      cases l with
      | nil => exact absurd rfl hl
      | cons a t => simp only [List.length_drop, List.length_cons]; omega
    have ih := batchArray_join (l.drop n) n hn
    simp only [List.flatten_cons, ih]
    exact List.take_append_drop n l
termination_by l.length

theorem batchArray_small (l : List α) (n : Nat) (hl : l ≠ []) (hn : n ≠ 0)
    (hle : l.length ≤ n) : batchArray l n = [l] := by
  rw [batchArray_cons_eq l n hl hn]
  rw [List.take_of_length_le hle, List.drop_eq_nil_of_le hle, batchArray_nil]

/-! ## Data model (types/db.ts as used by the embedded code) -/

/-- The `meta` object attached to an engagement-champion award
(`{activity_count, threshold, awarded_by}` in pre-build.ts); its JSON
serialization is injective, so the stored table keeps it structured. -/
structure AwardMeta where
  activity_count : Nat
  threshold : Nat
  awarded_by : String
deriving DecidableEq

/-- `ContributorBadge` (types/db.ts): the in-memory award record handed
to `upsertContributorBadges`; `achieved_on` is a JavaScript `Date`. -/
structure ContributorBadge where
  slug : String
  badge : String
  contributor : String
  variant : String
  achieved_on : JSDate
  meta : Option AwardMeta
deriving DecidableEq

/-- A row of the `contributor_badge` table as the INSERT stores it:
`achieved_on` already serialized to its `YYYY-MM-DD` string. -/
structure StoredBadge where
  slug : String
  badge : String
  contributor : String
  variant : String
  achieved_on : String
  meta : Option AwardMeta
deriving DecidableEq

/-- `BadgeVariant` (types/db.ts). -/
structure BadgeVariant where
  description : String
  svg_url : String
  requirement : Option String
deriving DecidableEq

/-- `BadgeDefinition` (types/db.ts); `variants` keeps the structured
mapping whose JSON serialization the table stores. -/
structure BadgeDefinition where
  slug : String
  name : String
  description : String
  variants : List (String × BadgeVariant)
deriving DecidableEq

/-- `Activity` (types/db.ts): the in-memory activity record;
`occured_at` is a JavaScript `Date`. -/
structure Activity where
  slug : String
  contributor : String
  activity_definition : String
  title : String
  occured_at : JSDate
  link : Option String
  text : Option String
  points : Option Int
  meta : Option String
deriving DecidableEq

/-- A row of the `activity` table as the INSERT stores it
(`occured_at` serialized to a full ISO timestamp string). -/
structure StoredActivity where
  slug : String
  contributor : String
  activity_definition : String
  title : String
  occured_at : String
  link : Option String
  text : Option String
  points : Option Int
  meta : Option String
deriving DecidableEq

/-- `ContributorAggregate` (types/db.ts); the tagged `{type: "number",
value}` union is represented by its integer payload, the only tag the
embedded code produces. -/
structure ContributorAggregate where
  aggregate : String
  contributor : String
  value : Int
deriving DecidableEq

/-- `GlobalAggregate` (types/db.ts), with the same value representation. -/
structure GlobalAggregate where
  slug : String
  name : String
  description : String
  value : Int
deriving DecidableEq

/-! ## Badge award upsert (src/lib/db.ts, upsertContributorBadges, lines 259-287)

The SQL is `INSERT ... ON CONFLICT (slug) DO NOTHING`, issued per batch of
1000; the parameter list is built by a `flatMap` that calls
`b.achieved_on.toISOString()`, which throws on an Invalid Date before the
batch's query runs (aborting that batch and all later ones, while earlier
batches stay committed). -/

/-- Whether a badge row with this slug is already stored. -/
def hasSlug (tbl : List StoredBadge) (s : String) : Bool :=
  tbl.any (fun r => r.slug = s)

/-- Serialize one award to its row parameters; `none` models the
`toISOString` throw on an Invalid Date. -/
def serializeBadge (b : ContributorBadge) : Option StoredBadge :=
  match b.achieved_on with
  | none => none
  | some ms =>
    some ⟨b.slug, b.badge, b.contributor, b.variant, toISODateOnly ms, b.meta⟩

/-- Serialize a batch, failing at the first Invalid Date exactly as the
`flatMap` building the SQL parameters does. -/
def serializeBadgeBatch : List ContributorBadge → Option (List StoredBadge)
  | [] => some []
  | b :: bs =>
    match serializeBadge b with
    | none => none
    | some r =>
      match serializeBadgeBatch bs with
      | none => none
      | some rs => some (r :: rs)

/-- Insert one row under `ON CONFLICT (slug) DO NOTHING`, tracking the
affected-row count. -/
def insertBadgeRow (acc : List StoredBadge × Nat) (r : StoredBadge) :
    List StoredBadge × Nat :=
  if hasSlug acc.1 r.slug then acc else (acc.1 ++ [r], acc.2 + 1)

/-- Run one batch's INSERT: serialize the parameters, then insert each
row; `none` is the serialization throw. -/
def applyBadgeBatch (tbl : List StoredBadge) (batch : List ContributorBadge) :
    Option (List StoredBadge × Nat) :=
  (serializeBadgeBatch batch).map (fun rows => rows.foldl insertBadgeRow (tbl, 0))

/-- Issue the batches strictly in order; a throw aborts the remaining
batches but keeps the state the earlier ones produced. The `Bool` is
true when the call ended in a throw. -/
def runBadgeBatches : List (List ContributorBadge) → List StoredBadge →
    List StoredBadge × Nat × Bool
  | [], tbl => (tbl, 0, false)
  | b :: bs, tbl =>
    match applyBadgeBatch tbl b with
    | none => (tbl, 0, true)
    | some (tbl2, k) =>
      let r := runBadgeBatches bs tbl2
      (r.1, k + r.2.1, r.2.2)

/-- `upsertContributorBadges`: early-return on an empty collection, else
batches of 1000. -/
def upsertContributorBadges (badges : List ContributorBadge)
    (tbl : List StoredBadge) : List StoredBadge × Nat × Bool :=
  if badges.isEmpty then (tbl, 0, false)
  else runBadgeBatches (batchArray badges 1000) tbl

/-! ## Badge definition upsert (src/lib/db.ts, upsertBadgeDefinition, lines 234-253)

`INSERT ... ON CONFLICT (slug) DO UPDATE SET name = EXCLUDED.name,
description = EXCLUDED.description, variants = EXCLUDED.variants`. -/

/-- Upsert a badge definition: update name/description/variants of the
conflicting row, or append a new row. -/
def upsertBadgeDefinition (d : BadgeDefinition) (tbl : List BadgeDefinition) :
    List BadgeDefinition :=
  if tbl.any (fun r => r.slug = d.slug) then
    tbl.map (fun r =>
      if r.slug = d.slug then
        { r with name := d.name, description := d.description,
                 variants := d.variants }
      else r)
  else tbl ++ [d]

/-- Look up the stored definition for a slug (`slug` is the table's
primary key, so at most one row matches). -/
def findDef (tbl : List BadgeDefinition) (s : String) : Option BadgeDefinition :=
  tbl.find? (fun r => r.slug = s)

/-! ## Activity upsert (src/lib/db.ts, addActivities, lines 102-127)

`INSERT ... ON CONFLICT (slug) DO UPDATE SET contributor = ...,
activity_definition = ..., title = ..., occured_at = ..., link = ...`
(note: `text`, `points` and `meta` are NOT updated on conflict), issued
per batch of 1000; the parameter `flatMap` calls
`a.occured_at.toISOString()`. -/

/-- Serialize one activity to its row parameters; `none` models the
`toISOString` throw on an Invalid Date. -/
def serializeActivity (a : Activity) : Option StoredActivity :=
  match a.occured_at with
  | none => none
  | some ms =>
    some ⟨a.slug, a.contributor, a.activity_definition, a.title,
          toISOFull ms, a.link, a.text, a.points, a.meta⟩

/-- Serialize a batch of activities, failing at the first Invalid Date. -/
def serializeActivityBatch : List Activity → Option (List StoredActivity)
  | [] => some []
  | a :: as2 =>
    match serializeActivity a with
    | none => none
    | some r =>
      match serializeActivityBatch as2 with
      | none => none
      | some rs => some (r :: rs)

/-- Insert one activity row: on a slug conflict update contributor,
activity_definition, title, occured_at and link (keeping text, points,
meta), else append; every row counts as affected. -/
def insertActivityRow (acc : List StoredActivity × Nat) (r : StoredActivity) :
    List StoredActivity × Nat :=
  if acc.1.any (fun o => o.slug = r.slug) then
    (acc.1.map (fun o =>
      if o.slug = r.slug then
        { o with contributor := r.contributor,
                 activity_definition := r.activity_definition,
                 title := r.title, occured_at := r.occured_at, link := r.link }
      else o), acc.2 + 1)
  else (acc.1 ++ [r], acc.2 + 1)

/-- Run one activity batch's INSERT: serialize the parameters (throwing
on an Invalid Date), then execute the statement. Two rows with the same
slug inside one `INSERT ... ON CONFLICT (slug) DO UPDATE` statement make
PostgreSQL raise "cannot affect row a second time", so a batch whose
slugs are not pairwise distinct also fails (`none`); otherwise each row
is inserted or updated in order. -/
def applyActivityBatch (tbl : List StoredActivity) (batch : List Activity) :
    Option (List StoredActivity × Nat) :=
  match serializeActivityBatch batch with
  | none => none
  | some rows =>
    if (rows.map (fun r => r.slug)).Nodup then
      some (rows.foldl insertActivityRow (tbl, 0))
    else none

/-- Issue activity batches strictly in order (same abort behavior as the
badge batches). -/
def runActivityBatches : List (List Activity) → List StoredActivity →
    List StoredActivity × Nat × Bool
  | [], tbl => (tbl, 0, false)
  | b :: bs, tbl =>
    match applyActivityBatch tbl b with
    | none => (tbl, 0, true)
    | some (tbl2, k) =>
      let r := runActivityBatches bs tbl2
      (r.1, k + r.2.1, r.2.2)

/-- `addActivities`: batches of 1000 (no empty-collection guard in the
source; an empty array yields zero batches). -/
def addActivities (acts : List Activity) (tbl : List StoredActivity) :
    List StoredActivity × Nat × Bool :=
  runActivityBatches (batchArray acts 1000) tbl

/-- Modelled from the spec: the hypothetical single unchunked upsert of
the whole collection (spec section 8, batch-size invariance), against
which the chunked `addActivities` is compared. As one single
`INSERT ... ON CONFLICT DO UPDATE` statement it throws on an Invalid
Date during parameter serialization and fails on duplicate slugs within
the statement, and in either case stores nothing. -/
def addActivitiesUnchunked (acts : List Activity) (tbl : List StoredActivity) :
    Option (List StoredActivity × Nat) :=
  match serializeActivityBatch acts with
  | none => none
  | some rows =>
    if (rows.map (fun r => r.slug)).Nodup then
      some (rows.foldl insertActivityRow (tbl, 0))
    else none

/-! ## Aggregate upserts (src/lib/db.ts, lines 165-228)

Both are update-on-conflict; `upsertGlobalAggregates` and
`upsertContributorAggregates` early-return on an empty collection. -/

/-- Insert one contributor aggregate under
`ON CONFLICT (aggregate, contributor) DO UPDATE SET value = EXCLUDED.value`. -/
def insertContributorAggregateRow (tbl : List ContributorAggregate)
    (a : ContributorAggregate) : List ContributorAggregate :=
  if tbl.any (fun r => r.aggregate = a.aggregate ∧ r.contributor = a.contributor) then
    tbl.map (fun r =>
      if r.aggregate = a.aggregate ∧ r.contributor = a.contributor then
        { r with value := a.value }
      else r)
  else tbl ++ [a]

/-- `upsertContributorAggregates`: early-return on empty, else batches of
1000 of infallible row inserts. -/
def upsertContributorAggregates (aggs : List ContributorAggregate)
    (tbl : List ContributorAggregate) : List ContributorAggregate :=
  if aggs.isEmpty then tbl
  else (batchArray aggs 1000).foldl
    (fun t b => b.foldl insertContributorAggregateRow t) tbl

/-- Insert one global aggregate under `ON CONFLICT (slug) DO UPDATE SET
name = ..., description = ..., value = ...`. -/
def insertGlobalAggregateRow (tbl : List GlobalAggregate) (a : GlobalAggregate) :
    List GlobalAggregate :=
  if tbl.any (fun r => r.slug = a.slug) then
    tbl.map (fun r =>
      if r.slug = a.slug then
        { r with name := a.name, description := a.description, value := a.value }
      else r)
  else tbl ++ [a]

/-- `upsertGlobalAggregates`: early-return on empty, else batches of 1000. -/
def upsertGlobalAggregates (aggs : List GlobalAggregate)
    (tbl : List GlobalAggregate) : List GlobalAggregate :=
  if aggs.isEmpty then tbl
  else (batchArray aggs 1000).foldl
    (fun t b => b.foldl insertGlobalAggregateRow t) tbl

/-! ## The aggregation pass (src/scripts/pre-build.ts, calculateAndUpsertExampleMetric)

The query returns one `(contributor, example_metric)` row per activity of
kind `example_activity` whose `meta.example_metric` is present; the JS
loop converts each value with `Number(...)`, skips NaN, groups the rest
per contributor in a `Map` (insertion order, pushing to the end of each
contributor's array) and collects all numeric values in row order. -/

/-- One result row of the metric query: contributor and the metric's
string value. -/
abbrev MetricRow := String × String

/-- Record one numeric value in the per-contributor map, exactly as
`contributorMetrics.get(row.contributor).push(metric)` does: append to an
existing contributor's list, or add the contributor with a singleton. -/
def addMetric (acc : List (String × List ℚ)) (c : String) (v : ℚ) :
    List (String × List ℚ) :=
  if acc.any (fun e => e.1 = c) then
    acc.map (fun e => if e.1 = c then (e.1, e.2 ++ [v]) else e)
  else acc ++ [(c, [v])]

/-- One step of the row loop: a NaN value is skipped, a numeric one is
recorded. -/
def metricStep (acc : List (String × List ℚ)) (r : MetricRow) :
    List (String × List ℚ) :=
  match jsNumber r.2 with
  | some v => addMetric acc r.1 v
  | none => acc

/-- The `contributorMetrics` map after the row loop. -/
def groupRows (rows : List MetricRow) : List (String × List ℚ) :=
  rows.foldl metricStep []

/-- The `allMetrics` array after the row loop: every numeric value in row
order. -/
def allNums (rows : List MetricRow) : List ℚ :=
  rows.filterMap (fun r => jsNumber r.2)

/-- The pure computation of `calculateAndUpsertExampleMetric`: the
contributor aggregates (rounded mean per contributor) and the global
average (rounded mean of all values, `none` when there are none). -/
def calcExampleMetric (rows : List MetricRow) :
    List ContributorAggregate × Option Int :=
  let grouped := groupRows rows
  let allMetrics := allNums rows
  (grouped.map (fun e =>
     ⟨"example_avg_metric", e.1, mathRound (e.2.sum / (e.2.length : ℚ))⟩),
   if 0 < allMetrics.length then
     some (mathRound (allMetrics.sum / (allMetrics.length : ℚ)))
   else none)

/-- The aggregation pass including its conditional upserts: contributor
aggregates are upserted only when at least one exists, the single global
aggregate only when the global average is non-null. -/
def runExampleMetricPass (rows : List MetricRow)
    (ctbl : List ContributorAggregate) (gtbl : List GlobalAggregate) :
    List ContributorAggregate × List GlobalAggregate :=
  let r := calcExampleMetric rows
  let ctbl2 := if 0 < r.1.length then upsertContributorAggregates r.1 ctbl else ctbl
  let gtbl2 :=
    match r.2 with
    | some v =>
      upsertGlobalAggregates
        [⟨"example_avg_metric", "Example Avg. Metric",
          "Average of an example metric", v⟩] gtbl
    | none => gtbl
  (ctbl2, gtbl2)

/-! ## The badge pass (src/scripts/pre-build.ts, awardEngagementChampionBadges) -/

/-- One threshold entry `{variant, required}`. -/
structure Threshold where
  variant : String
  required : Nat
deriving DecidableEq

/-- The threshold list of the source, in its order. -/
def thresholds : List Threshold :=
  [⟨"bronze", 10⟩, ⟨"silver", 50⟩, ⟨"gold", 100⟩,
   ⟨"platinum", 500⟩, ⟨"diamond", 1000⟩]

/-- One entry of the `getActivityCounts` map: a contributor, the
contributor's activity count, and the first-activity date (a valid
timestamp coming from the `MIN(occured_at)` aggregate). -/
structure ActivityCount where
  contributor : String
  count : Nat
  first_activity_at : Nat
deriving DecidableEq

/-- The award the inner loop constructs for one satisfied threshold. -/
def mkAward (e : ActivityCount) (t : Threshold) : ContributorBadge :=
  { slug := "engagement_champion__" ++ e.contributor ++ "__" ++ t.variant
    badge := "engagement_champion"
    contributor := e.contributor
    variant := t.variant
    achieved_on := some e.first_activity_at
    meta := some ⟨e.count, t.required, "automated"⟩ }

/-- The awards the pass constructs for one contributor: one per threshold
with `count >= required`, in threshold order. -/
def badgesForContributor (e : ActivityCount) : List ContributorBadge :=
  thresholds.filterMap (fun t =>
    if t.required ≤ e.count then some (mkAward e t) else none)

/-- `badgesToAward`: the loop over the activity-count map entries. -/
def badgesToAward (counts : List ActivityCount) : List ContributorBadge :=
  counts.flatMap badgesForContributor

/-- The badge pass: construct the awards and upsert them only when at
least one exists. -/
def awardEngagementChampionBadges (counts : List ActivityCount)
    (tbl : List StoredBadge) : List StoredBadge × Nat × Bool :=
  let badges := badgesToAward counts
  if 0 < badges.length then upsertContributorBadges badges tbl
  else (tbl, 0, false)

/-! ## The import script (src/unnamed import script, main)

Badge JSON files are parsed into records whose `achieved_on` is still a
string; the loop replaces it by `new Date(badge.achieved_on)` with no
validation, and the collected list goes to `upsertContributorBadges`.
Activities are treated the same way with `occured_at` (their contributor
insertion touches a separate table and is not modelled here). -/

/-- A badge record as parsed from a JSON file (dates still strings). -/
structure RawBadge where
  slug : String
  badge : String
  contributor : String
  variant : String
  achieved_on : String
  meta : Option AwardMeta
deriving DecidableEq

/-- The badge-import step: convert each date with `new Date(...)` and
upsert the whole collection. -/
def importBadges (raw : List RawBadge) (tbl : List StoredBadge) :
    List StoredBadge × Nat × Bool :=
  upsertContributorBadges
    (raw.map (fun b =>
      ⟨b.slug, b.badge, b.contributor, b.variant, jsNewDate b.achieved_on, b.meta⟩))
    tbl

/-- An activity record as parsed from a JSON file (dates still strings). -/
structure RawActivity where
  slug : String
  contributor : String
  activity_definition : String
  title : String
  occured_at : String
  link : Option String
  text : Option String
  points : Option Int
  meta : Option String
deriving DecidableEq

/-- The activity-import step: convert each date with `new Date(...)` and
add the whole collection. -/
def importActivityRecords (raw : List RawActivity) (tbl : List StoredActivity) :
    List StoredActivity × Nat × Bool :=
  addActivities
    (raw.map (fun a =>
      ⟨a.slug, a.contributor, a.activity_definition, a.title,
       jsNewDate a.occured_at, a.link, a.text, a.points, a.meta⟩))
    tbl

/-! ## The database handle (src/lib/db.ts, getDb and resetDbInstance) -/

/-- A PGlite instance, identified by what it was constructed from:
`none` is the in-memory instance (`new PGlite()`), `some p` the
file-backed one (`new PGlite(p)`). -/
structure PGliteInst where
  dataDir : Option String
deriving DecidableEq

/-- The process-wide state `getDb` reads: the `PGLITE_DB_PATH`
environment variable (`none` when unset) and the cached module-level
`dbInstance`. -/
structure ProcState where
  env : Option String
  dbInstance : Option PGliteInst
deriving DecidableEq

/-- The message of the error `getDb` throws (the source quotes the
variable name; the quotes are omitted here). -/
def dbPathErrorMsg : String :=
  "PGLITE_DB_PATH environment needs to be set with a path to the database data."

/-- `getDb`: throw when the environment variable is unset or empty (the
JavaScript falsiness check on a string), else return the cached instance
if one exists, else construct one from the current path (the sentinel
`:memory:` selecting the in-memory instance) and cache it. -/
def getDb (s : ProcState) : Except String (PGliteInst × ProcState) :=
  match s.env with
  | none => Except.error dbPathErrorMsg
  | some p =>
    if p = "" then Except.error dbPathErrorMsg
    else
      match s.dbInstance with
      | some i => Except.ok (i, s)
      | none =>
        let i : PGliteInst := if p = ":memory:" then ⟨none⟩ else ⟨some p⟩
        Except.ok (i, { s with dbInstance := some i })

/-- `resetDbInstance`: clear the cached instance. -/
def resetDbInstance (s : ProcState) : ProcState :=
  { s with dbInstance := none }

/-! ## Helper lemmas on `batchArray` chunks -/

theorem batchArray_chunks (l : List α) (n : Nat) (hn : n ≠ 0) :
    ∀ c ∈ batchArray l n, c ≠ [] ∧ c.length ≤ n := by
  by_cases hl : l = []
  · subst hl
    simp [batchArray_nil]
  · rw [batchArray_cons_eq l n hl hn]
    intro c hc
    rcases List.mem_cons.mp hc with h | h
    · subst h
      refine ⟨?_, ?_⟩
      · simp [List.take_eq_nil_iff, hl, hn]
      · simp [List.length_take]
    · have hlt : (l.drop n).length < l.length := by
        cases l with
        | nil => exact absurd rfl hl
        | cons a t => simp only [List.length_drop, List.length_cons]; omega
      exact batchArray_chunks (l.drop n) n hn c h
termination_by l.length

theorem batchArray_ne_nil_of_ne_nil (l : List α) (n : Nat) (hl : l ≠ [])
    (hn : n ≠ 0) : batchArray l n ≠ [] := by
  rw [batchArray_cons_eq l n hl hn]
  exact List.cons_ne_nil _ _

theorem batchArray_full_chunks (l : List α) (n : Nat) (hn : n ≠ 0) :
    ∀ i, ∀ h : i + 1 < (batchArray l n).length,
      ((batchArray l n).get ⟨i, Nat.lt_of_succ_lt h⟩).length = n := by
  by_cases hl : l = []
  · subst hl
    intro i h
    simp [batchArray_nil] at h
  · rw [batchArray_cons_eq l n hl hn]
    intro i h
    match i with
    | 0 =>
      have hrest : batchArray (l.drop n) n ≠ [] := by
        intro hre
        rw [hre] at h
        simp at h
      have hdrop : l.drop n ≠ [] := by
        intro hd
        rw [hd, batchArray_nil] at hrest
        exact hrest rfl
      have hlen : n < l.length := by
        by_contra hno
        exact hdrop (List.drop_eq_nil_of_le (by omega))
      simp [List.length_take]
      omega
    | Nat.succ j =>
      have hlt : (l.drop n).length < l.length := by
        cases l with
        | nil => exact absurd rfl hl
        | cons a t => simp only [List.length_drop, List.length_cons]; omega
      have h2 : j + 1 < (batchArray (l.drop n) n).length := by
        simpa using Nat.lt_of_succ_lt_succ h
      have := batchArray_full_chunks (l.drop n) n hn j h2
      simpa using this
termination_by l.length

/-- C9: the chunks of `batchArray` concatenate back to the input, every
chunk is non-empty of length at most the batch size, every chunk except
possibly the last is exactly full, and an empty input yields zero
chunks. -/
theorem claim9_batchArray_partition (l : List α) (n : Nat) (hn : 1 ≤ n) :
    (batchArray l n).flatten = l ∧
    (∀ c ∈ batchArray l n, c ≠ [] ∧ c.length ≤ n) ∧
    (∀ i, ∀ h : i + 1 < (batchArray l n).length,
      ((batchArray l n).get ⟨i, Nat.lt_of_succ_lt h⟩).length = n) ∧
    (l = [] → batchArray l n = []) := by
  have hn0 : n ≠ 0 := by omega
  refine ⟨batchArray_join l n hn0, batchArray_chunks l n hn0,
    batchArray_full_chunks l n hn0, ?_⟩
  intro hl
  subst hl
  exact batchArray_nil n

/-- Witness for C9 at a concrete array and batch size. -/
theorem claim9_batchArray_partition_witness :
    (batchArray [1, 2, 3, 4, 5] 2).flatten = [1, 2, 3, 4, 5] ∧
    (∀ c ∈ batchArray [1, 2, 3, 4, 5] 2, c ≠ [] ∧ c.length ≤ 2) := by
  have h := claim9_batchArray_partition [1, 2, 3, 4, 5] 2 (by decide)
  exact ⟨h.1, h.2.1⟩

/-! ## C2: the badge pass constructs exactly the qualifying awards -/

theorem filterMap_ite (l : List α) (p : α → Prop) [DecidablePred p] (f : α → β) :
    l.filterMap (fun a => if p a then some (f a) else none) =
      (l.filter (fun a => decide (p a))).map f := by
  induction l with
  | nil => rfl
  | cons a t ih =>
    by_cases h : p a <;> simp [List.filterMap_cons, h, ih]

/-- C2: for a contributor with count `C` the constructed award set is
exactly the thresholds with `required <= C`, each award carrying the
`engagement_champion__{contributor}__{variant}` slug, the first-activity
date as `achieved_on`, and the `{activity_count, threshold, awarded_by}`
meta; with `C = 75` the awarded variants are exactly bronze and silver. -/
theorem claim2_threshold_monotonicity :
    (∀ e : ActivityCount, badgesForContributor e =
      (thresholds.filter (fun t => decide (t.required ≤ e.count))).map (mkAward e)) ∧
    (∀ (e : ActivityCount) (t : Threshold), mkAward e t =
      { slug := "engagement_champion__" ++ e.contributor ++ "__" ++ t.variant
        badge := "engagement_champion"
        contributor := e.contributor
        variant := t.variant
        achieved_on := some e.first_activity_at
        meta := some ⟨e.count, t.required, "automated"⟩ }) ∧
    (∀ counts : List ActivityCount,
      badgesToAward counts = counts.flatMap badgesForContributor) ∧
    (∀ (c : String) (d : Nat),
      (badgesForContributor ⟨c, 75, d⟩).map (fun b => b.variant) =
        ["bronze", "silver"]) := by
  refine ⟨?_, ?_, ?_, ?_⟩
  · intro e
    exact filterMap_ite thresholds (fun t => t.required ≤ e.count) (mkAward e)
  · intro e t
    rfl
  · intro counts
    rfl
  · intro c d
    rfl

/-! ## C10: getDb throws on a missing path and otherwise caches -/

/-- C10: `getDb` throws exactly when the environment variable is unset or
empty at the moment of the call (cached instance or not); with a cached
instance and a non-empty path it returns that instance unchanged whatever
the path now is; a successful call leaves the returned instance cached;
`resetDbInstance` clears the cache. -/
theorem claim10_getdb_cache_semantics :
    (∀ s : ProcState,
      (∃ m, getDb s = Except.error m) ↔ (s.env = none ∨ s.env = some "")) ∧
    (∀ (s : ProcState) (i : PGliteInst) (p : String),
      s.dbInstance = some i → p ≠ "" →
      getDb { s with env := some p } = Except.ok (i, { s with env := some p })) ∧
    (∀ (s s2 : ProcState) (i : PGliteInst),
      getDb s = Except.ok (i, s2) → s2.dbInstance = some i) ∧
    (∀ s : ProcState, (resetDbInstance s).dbInstance = none) := by
  refine ⟨?_, ?_, ?_, ?_⟩
  · rintro ⟨env, inst⟩
    constructor
    · rintro ⟨m, hm⟩
      match env with
      | none => exact Or.inl rfl
      | some p =>
        right
        simp only [getDb] at hm
        by_cases hp : p = ""
        · rw [hp]
        · rw [if_neg hp] at hm
          cases inst <;> simp at hm
    · rintro (h | h)
      · cases h
        exact ⟨dbPathErrorMsg, by simp [getDb]⟩
      · cases h
        exact ⟨dbPathErrorMsg, by simp [getDb]⟩
  · rintro ⟨env, inst⟩ i p hi hp
    simp only at hi
    subst hi
    simp [getDb, hp]
  · rintro ⟨env, inst⟩ s2 i h
    match env with
    | none => simp [getDb] at h
    | some p =>
      simp only [getDb] at h
      by_cases hp : p = ""
      · rw [if_pos hp] at h
        exact Except.noConfusion h
      · rw [if_neg hp] at h
        match inst with
        | some j =>
          obtain ⟨hji, hs2⟩ := Prod.mk.inj (Except.ok.inj h)
          subst hji
          subst hs2
          rfl
        | none =>
          obtain ⟨hvi, hs2⟩ := Prod.mk.inj (Except.ok.inj h)
          subst hvi
          subst hs2
          rfl
  · intro s
    rfl

/-- Witness for C10: an empty path throws even with a cached instance; a
cached instance is returned unchanged under a different path; the reset
clears the cache. -/
theorem claim10_getdb_cache_semantics_witness :
    (∃ m, getDb ⟨some "", some ⟨none⟩⟩ = Except.error m) ∧
    getDb ⟨some "other.db", some ⟨some "data.db"⟩⟩ =
      Except.ok (⟨some "data.db"⟩, ⟨some "other.db", some ⟨some "data.db"⟩⟩) ∧
    (resetDbInstance ⟨some "data.db", some ⟨some "data.db"⟩⟩).dbInstance = none := by
  refine ⟨?_, ?_, ?_⟩
  · exact (claim10_getdb_cache_semantics.1 ⟨some "", some ⟨none⟩⟩).mpr (Or.inr rfl)
  · exact claim10_getdb_cache_semantics.2.1 ⟨some "data.db", some ⟨some "data.db"⟩⟩
      ⟨some "data.db"⟩ "other.db" rfl (by decide)
  · exact claim10_getdb_cache_semantics.2.2.2 ⟨some "data.db", some ⟨some "data.db"⟩⟩

/-! ## C1: idempotence of the badge award upsert -/

theorem hasSlug_append (l : List StoredBadge) (r : StoredBadge) (s : String) :
    hasSlug (l ++ [r]) s = (hasSlug l s || (r.slug = s : Bool)) := by
  simp [hasSlug, List.any_append]

theorem hasSlug_insertBadgeRow (acc : List StoredBadge × Nat) (r : StoredBadge)
    (s : String) (h : hasSlug acc.1 s = true) :
    hasSlug (insertBadgeRow acc r).1 s = true := by
  unfold insertBadgeRow
  by_cases hc : hasSlug acc.1 r.slug = true
  · rw [if_pos hc]
    exact h
  · rw [if_neg hc]
    simp only
    rw [hasSlug_append, h, Bool.true_or]

theorem hasSlug_insertBadgeRow_self (acc : List StoredBadge × Nat)
    (r : StoredBadge) : hasSlug (insertBadgeRow acc r).1 r.slug = true := by
  unfold insertBadgeRow
  by_cases hc : hasSlug acc.1 r.slug = true
  · rw [if_pos hc]
    exact hc
  · rw [if_neg hc]
    simp only
    rw [hasSlug_append]
    simp

theorem foldl_insertBadgeRow_mono (rows : List StoredBadge) :
    ∀ (acc : List StoredBadge × Nat) (s : String), hasSlug acc.1 s = true →
      hasSlug ((rows.foldl insertBadgeRow acc).1) s = true := by
  induction rows with
  | nil => intro acc s h; exact h
  | cons r rest ih =>
    intro acc s h
    exact ih _ s (hasSlug_insertBadgeRow acc r s h)

theorem foldl_insertBadgeRow_covers (rows : List StoredBadge) :
    ∀ (acc : List StoredBadge × Nat), ∀ r ∈ rows,
      hasSlug ((rows.foldl insertBadgeRow acc).1) r.slug = true := by
  induction rows with
  | nil =>
    intro acc r h
    cases h
  | cons x rest ih =>
    intro acc r h
    rcases List.mem_cons.mp h with h | h
    · subst h
      exact foldl_insertBadgeRow_mono rest _ r.slug (hasSlug_insertBadgeRow_self acc r)
    · exact ih _ r h

theorem foldl_insertBadgeRow_noop (rows : List StoredBadge) :
    ∀ (acc : List StoredBadge × Nat), (∀ r ∈ rows, hasSlug acc.1 r.slug = true) →
      rows.foldl insertBadgeRow acc = acc := by
  induction rows with
  | nil => intro acc _; rfl
  | cons x rest ih =>
    intro acc h
    have hx : insertBadgeRow acc x = acc := by
      unfold insertBadgeRow
      simp only [h x (List.mem_cons_self x rest), if_true]
    rw [List.foldl_cons, hx]
    exact ih acc (fun r hr => h r (List.mem_cons_of_mem _ hr))

theorem serializeBadge_slug (b : ContributorBadge) (r : StoredBadge)
    (h : serializeBadge b = some r) : r.slug = b.slug := by
  unfold serializeBadge at h
  match hb : b.achieved_on with
  | none => rw [hb] at h; cases h
  | some ms =>
    rw [hb] at h
    injection h with h
    subst h
    rfl

theorem serializeBadgeBatch_slugs (batch : List ContributorBadge) :
    ∀ rows, serializeBadgeBatch batch = some rows →
      (∀ r ∈ rows, ∃ b ∈ batch, r.slug = b.slug) ∧
      (∀ b ∈ batch, ∃ r ∈ rows, r.slug = b.slug) := by
  induction batch with
  | nil =>
    intro rows h
    injection h with h
    subst h
    simp
  | cons b bs ih =>
    intro rows h
    unfold serializeBadgeBatch at h
    match hb : serializeBadge b with
    | none => rw [hb] at h; cases h
    | some r =>
      rw [hb] at h
      match hbs : serializeBadgeBatch bs with
      | none => rw [hbs] at h; cases h
      | some rs =>
        rw [hbs] at h
        injection h with h
        subst h
        have hr := serializeBadge_slug b r hb
        obtain ⟨ih1, ih2⟩ := ih rs hbs
        constructor
        · intro x hx
          rcases List.mem_cons.mp hx with hx | hx
          · subst hx
            exact ⟨b, List.mem_cons_self _ _, hr⟩
          · obtain ⟨bb, hbb, he⟩ := ih1 x hx
            exact ⟨bb, List.mem_cons_of_mem _ hbb, he⟩
        · intro x hx
          rcases List.mem_cons.mp hx with hx | hx
          · subst hx
            exact ⟨r, List.mem_cons_self _ _, hr⟩
          · obtain ⟨rr, hrr, he⟩ := ih2 x hx
            exact ⟨rr, List.mem_cons_of_mem _ hrr, he⟩

theorem applyBadgeBatch_mono (tbl : List StoredBadge)
    (batch : List ContributorBadge) (t2 : List StoredBadge) (k : Nat)
    (h : applyBadgeBatch tbl batch = some (t2, k)) (s : String)
    (hs : hasSlug tbl s = true) : hasSlug t2 s = true := by
  unfold applyBadgeBatch at h
  match hb : serializeBadgeBatch batch with
  | none => rw [hb] at h; cases h
  | some rows =>
    rw [hb] at h
    simp only [Option.map_some'] at h
    injection h with h
    have hm := foldl_insertBadgeRow_mono rows (tbl, 0) s hs
    rw [h] at hm
    exact hm

theorem applyBadgeBatch_covers (tbl : List StoredBadge)
    (batch : List ContributorBadge) (t2 : List StoredBadge) (k : Nat)
    (h : applyBadgeBatch tbl batch = some (t2, k)) :
    ∀ b ∈ batch, hasSlug t2 b.slug = true := by
  intro b hbmem
  unfold applyBadgeBatch at h
  match hb : serializeBadgeBatch batch with
  | none => rw [hb] at h; cases h
  | some rows =>
    rw [hb] at h
    simp only [Option.map_some'] at h
    injection h with h
    obtain ⟨-, h2⟩ := serializeBadgeBatch_slugs batch rows hb
    obtain ⟨r, hrmem, hrs⟩ := h2 b hbmem
    have hc := foldl_insertBadgeRow_covers rows (tbl, 0) r hrmem
    rw [h, hrs] at hc
    exact hc

theorem applyBadgeBatch_noop (tbl : List StoredBadge)
    (batch : List ContributorBadge) (t2 : List StoredBadge) (k : Nat)
    (h : applyBadgeBatch tbl batch = some (t2, k)) (T : List StoredBadge)
    (hT : ∀ b ∈ batch, hasSlug T b.slug = true) :
    applyBadgeBatch T batch = some (T, 0) := by
  unfold applyBadgeBatch at h ⊢
  match hb : serializeBadgeBatch batch with
  | none => rw [hb] at h; cases h
  | some rows =>
    simp only [Option.map_some']
    obtain ⟨h1, -⟩ := serializeBadgeBatch_slugs batch rows hb
    have hall : ∀ r ∈ rows, hasSlug T r.slug = true := by
      intro r hr
      obtain ⟨b, hbmem, hrs⟩ := h1 r hr
      rw [hrs]
      exact hT b hbmem
    rw [foldl_insertBadgeRow_noop rows (T, 0) hall]

theorem runBadgeBatches_cons_none (b : List ContributorBadge)
    (bs : List (List ContributorBadge)) (tbl : List StoredBadge)
    (hb : applyBadgeBatch tbl b = none) :
    runBadgeBatches (b :: bs) tbl = (tbl, 0, true) := by
  unfold runBadgeBatches
  rw [hb]

theorem runBadgeBatches_cons_some (b : List ContributorBadge)
    (bs : List (List ContributorBadge)) (tbl t2 : List StoredBadge) (k : Nat)
    (hb : applyBadgeBatch tbl b = some (t2, k)) :
    runBadgeBatches (b :: bs) tbl =
      ((runBadgeBatches bs t2).1, k + (runBadgeBatches bs t2).2.1,
       (runBadgeBatches bs t2).2.2) := by
  conv_lhs => unfold runBadgeBatches
  rw [hb]

theorem runBadgeBatches_mono (bs : List (List ContributorBadge)) :
    ∀ (tbl : List StoredBadge) (s : String), hasSlug tbl s = true →
      hasSlug (runBadgeBatches bs tbl).1 s = true := by
  induction bs with
  | nil => intro tbl s h; exact h
  | cons b rest ih =>
    intro tbl s h
    match hb : applyBadgeBatch tbl b with
    | none =>
      rw [runBadgeBatches_cons_none b rest tbl hb]
      exact h
    | some (t2, k) =>
      rw [runBadgeBatches_cons_some b rest tbl t2 k hb]
      exact ih t2 s (applyBadgeBatch_mono tbl b t2 k hb s h)

theorem runBadgeBatches_idem (bs : List (List ContributorBadge)) :
    ∀ tbl : List StoredBadge,
      runBadgeBatches bs (runBadgeBatches bs tbl).1 =
        ((runBadgeBatches bs tbl).1, 0, (runBadgeBatches bs tbl).2.2) := by
  induction bs with
  | nil => intro tbl; rfl
  | cons b rest ih =>
    intro tbl
    match hb : applyBadgeBatch tbl b with
    | none =>
      rw [runBadgeBatches_cons_none b rest tbl hb]
      simp only
      exact runBadgeBatches_cons_none b rest tbl hb
    | some (t2, k) =>
      rw [runBadgeBatches_cons_some b rest tbl t2 k hb]
      simp only
      have hcov : ∀ x ∈ b, hasSlug (runBadgeBatches rest t2).1 x.slug = true := by
        intro x hx
        exact runBadgeBatches_mono rest t2 x.slug
          (applyBadgeBatch_covers tbl b t2 k hb x hx)
      rw [runBadgeBatches_cons_some b rest (runBadgeBatches rest t2).1
            (runBadgeBatches rest t2).1 0
            (applyBadgeBatch_noop tbl b t2 k hb (runBadgeBatches rest t2).1 hcov)]
      rw [ih t2]
      exact rfl

/-- C1: re-running `upsertContributorBadges` on the same collection (and
hence re-running the badge-awarding pass over an unchanged activity set)
leaves the stored award table literally identical to the state after the
first run — same slugs, same achieved_on, same meta — and the second run
affects zero rows. -/
theorem claim1_badge_upsert_idempotent (badges : List ContributorBadge)
    (tbl : List StoredBadge) :
    (upsertContributorBadges badges (upsertContributorBadges badges tbl).1 =
      ((upsertContributorBadges badges tbl).1, 0,
       (upsertContributorBadges badges tbl).2.2)) ∧
    (∀ (counts : List ActivityCount) (tbl2 : List StoredBadge),
      awardEngagementChampionBadges counts
          (awardEngagementChampionBadges counts tbl2).1 =
        ((awardEngagementChampionBadges counts tbl2).1, 0,
         (awardEngagementChampionBadges counts tbl2).2.2)) := by
  constructor
  · unfold upsertContributorBadges
    by_cases he : badges.isEmpty = true
    · simp only [he, if_true]
    · simp only [he, if_false]
      exact runBadgeBatches_idem (batchArray badges 1000) tbl
  · intro counts tbl2
    unfold awardEngagementChampionBadges
    by_cases hz : 0 < (badgesToAward counts).length
    · simp only [hz, if_true]
      unfold upsertContributorBadges
      by_cases he : (badgesToAward counts).isEmpty = true
      · simp only [he, if_true]
      · simp only [he, if_false]
        exact runBadgeBatches_idem (batchArray (badgesToAward counts) 1000) tbl2
    · simp only [hz, if_false]

/-! ## C4: update-on-conflict for definitions vs no-op-on-conflict for awards -/

theorem findDef_update_list (tbl : List BadgeDefinition) (d : BadgeDefinition)
    (h : tbl.any (fun r => r.slug = d.slug) = true) :
    (tbl.map (fun r =>
      if r.slug = d.slug then
        { r with name := d.name, description := d.description,
                 variants := d.variants }
      else r)).find? (fun r => r.slug = d.slug) = some d := by
  induction tbl with
  | nil => simp at h
  | cons r rest ih =>
    simp only [List.map_cons]
    by_cases hr : r.slug = d.slug
    · rw [if_pos hr]
      rw [List.find?_cons_of_pos _ (by simp [hr])]
      have : ({ r with name := d.name, description := d.description,
                       variants := d.variants } : BadgeDefinition) = d := by
        cases r
        cases d
        simp_all
      rw [this]
    · rw [if_neg hr]
      rw [List.find?_cons_of_neg _ (by simp [hr])]
      apply ih
      simp only [List.any_cons] at h
      simpa [hr] using h

/-- C4: re-upserting a badge definition with the same slug replaces the
stored name, description and variants with the new ones, while
re-upserting a contributor badge award whose slug is already stored —
whatever its meta or achieved_on — leaves the stored table unchanged and
affects zero rows. -/
theorem claim4_conflict_policy_differentiation :
    (∀ (tbl : List BadgeDefinition) (d : BadgeDefinition),
      findDef (upsertBadgeDefinition d tbl) d.slug = some d) ∧
    (∀ (tbl : List StoredBadge) (b : ContributorBadge),
      hasSlug tbl b.slug = true → b.achieved_on.isSome = true →
      upsertContributorBadges [b] tbl = (tbl, 0, false)) := by
  constructor
  · intro tbl d
    unfold upsertBadgeDefinition findDef
    by_cases h : tbl.any (fun r => r.slug = d.slug) = true
    · rw [if_pos h]
      exact findDef_update_list tbl d h
    · rw [if_neg h]
      rw [List.find?_append]
      have hnone : tbl.find? (fun r => r.slug = d.slug) = none := by
        rw [List.find?_eq_none]
        intro x hx
        intro hpx
        apply h
        rw [List.any_eq_true]
        exact ⟨x, hx, hpx⟩
      rw [hnone]
      simp [List.find?]
  · intro tbl b hslug hsome
    obtain ⟨ms, hms⟩ := Option.isSome_iff_exists.mp hsome
    have hser : serializeBadge b =
        some ⟨b.slug, b.badge, b.contributor, b.variant, toISODateOnly ms, b.meta⟩ := by
      unfold serializeBadge
      rw [hms]
    unfold upsertContributorBadges
    rw [if_neg (by simp)]
    rw [batchArray_small [b] 1000 (by simp) (by omega) (by simp)]
    have hbatch : serializeBadgeBatch [b] =
        some [⟨b.slug, b.badge, b.contributor, b.variant, toISODateOnly ms, b.meta⟩] := by
      unfold serializeBadgeBatch
      rw [hser]
      exact rfl
    have happly : applyBadgeBatch tbl [b] = some (tbl, 0) := by
      unfold applyBadgeBatch
      rw [hbatch]
      simp only [Option.map_some']
      congr 1
      apply foldl_insertBadgeRow_noop
      intro r hr
      simp only [List.mem_singleton] at hr
      subst hr
      exact hslug
    rw [runBadgeBatches_cons_some [b] [] tbl tbl 0 happly]
    exact rfl

/-- Witness for C4's award half: a stored award survives a re-upsert of
the same slug with a different meta and a different achieved_on. -/
theorem claim4_conflict_policy_differentiation_witness :
    upsertContributorBadges
      [⟨"engagement_champion__alice__bronze", "engagement_champion", "alice",
        "bronze", some 0, some ⟨99, 10, "manual"⟩⟩]
      [⟨"engagement_champion__alice__bronze", "engagement_champion", "alice",
        "bronze", "2024-01-15", some ⟨12, 10, "automated"⟩⟩] =
    ([⟨"engagement_champion__alice__bronze", "engagement_champion", "alice",
       "bronze", "2024-01-15", some ⟨12, 10, "automated"⟩⟩], 0, false) :=
  claim4_conflict_policy_differentiation.2
    [⟨"engagement_champion__alice__bronze", "engagement_champion", "alice",
      "bronze", "2024-01-15", some ⟨12, 10, "automated"⟩⟩]
    ⟨"engagement_champion__alice__bronze", "engagement_champion", "alice",
     "bronze", some 0, some ⟨99, 10, "manual"⟩⟩
    (by decide) (by decide)

/-! ## C5: chunked activity upsert equals the unchunked upsert -/

theorem insertActivityRow_fst (acc : List StoredActivity × Nat)
    (r : StoredActivity) :
    (insertActivityRow acc r).1 = (insertActivityRow (acc.1, 0) r).1 := by
  unfold insertActivityRow
  by_cases h : acc.1.any (fun o => o.slug = r.slug) = true
  · simp [h]
  · simp [h]

theorem insertActivityRow_snd (acc : List StoredActivity × Nat)
    (r : StoredActivity) :
    (insertActivityRow acc r).2 = acc.2 + (insertActivityRow (acc.1, 0) r).2 := by
  unfold insertActivityRow
  by_cases h : acc.1.any (fun o => o.slug = r.slug) = true
  · simp [h]
  · simp [h]

theorem foldl_insertActivityRow_shift (rows : List StoredActivity) :
    ∀ acc : List StoredActivity × Nat,
      rows.foldl insertActivityRow acc =
        ((rows.foldl insertActivityRow (acc.1, 0)).1,
         acc.2 + (rows.foldl insertActivityRow (acc.1, 0)).2) := by
  induction rows with
  | nil =>
    intro acc
    simp
  | cons r rest ih =>
    intro acc
    rw [List.foldl_cons, List.foldl_cons]
    rw [ih (insertActivityRow acc r), ih (insertActivityRow (acc.1, 0) r)]
    rw [insertActivityRow_fst acc r, insertActivityRow_snd acc r]
    rw [Nat.add_assoc]

theorem serializeActivityBatch_append (l1 l2 : List Activity)
    (r1 r2 : List StoredActivity) (h1 : serializeActivityBatch l1 = some r1)
    (h2 : serializeActivityBatch l2 = some r2) :
    serializeActivityBatch (l1 ++ l2) = some (r1 ++ r2) := by
  induction l1 generalizing r1 with
  | nil =>
    injection h1 with h1
    subst h1
    simpa using h2
  | cons a rest ih =>
    unfold serializeActivityBatch at h1
    match ha : serializeActivity a with
    | none => rw [ha] at h1; cases h1
    | some r =>
      rw [ha] at h1
      match hr : serializeActivityBatch rest with
      | none => rw [hr] at h1; cases h1
      | some rs =>
        rw [hr] at h1
        injection h1 with h1
        subst h1
        rw [List.cons_append]
        unfold serializeActivityBatch
        rw [ha, ih rs hr]
        exact rfl

theorem serializeActivityBatch_append_some (l1 l2 : List Activity)
    (rows : List StoredActivity)
    (h : serializeActivityBatch (l1 ++ l2) = some rows) :
    ∃ r1 r2, serializeActivityBatch l1 = some r1 ∧
      serializeActivityBatch l2 = some r2 ∧ rows = r1 ++ r2 := by
  induction l1 generalizing rows with
  | nil =>
    exact ⟨[], rows, rfl, by simpa using h, rfl⟩
  | cons a rest ih =>
    rw [List.cons_append] at h
    unfold serializeActivityBatch at h
    match ha : serializeActivity a with
    | none => rw [ha] at h; cases h
    | some r =>
      rw [ha] at h
      match hr : serializeActivityBatch (rest ++ l2) with
      | none => rw [hr] at h; cases h
      | some rs =>
        rw [hr] at h
        injection h with h
        subst h
        obtain ⟨r1, r2, hr1, hr2, hre⟩ := ih rs hr
        refine ⟨r :: r1, r2, ?_, hr2, by rw [hre, List.cons_append]⟩
        unfold serializeActivityBatch
        rw [ha, hr1]

theorem serializeActivityBatch_isSome (acts : List Activity)
    (h : ∀ a ∈ acts, (serializeActivity a).isSome = true) :
    ∃ rows, serializeActivityBatch acts = some rows := by
  induction acts with
  | nil => exact ⟨[], rfl⟩
  | cons a rest ih =>
    obtain ⟨r, hr⟩ := Option.isSome_iff_exists.mp (h a (List.mem_cons_self a rest))
    obtain ⟨rs, hrs⟩ := ih (fun x hx => h x (List.mem_cons_of_mem _ hx))
    refine ⟨r :: rs, ?_⟩
    unfold serializeActivityBatch
    rw [hr, hrs]

theorem runActivityBatches_cons_some (b : List Activity)
    (bs : List (List Activity)) (tbl t2 : List StoredActivity) (k : Nat)
    (hb : applyActivityBatch tbl b = some (t2, k)) :
    runActivityBatches (b :: bs) tbl =
      ((runActivityBatches bs t2).1, k + (runActivityBatches bs t2).2.1,
       (runActivityBatches bs t2).2.2) := by
  conv_lhs => unfold runActivityBatches
  rw [hb]

theorem serializeActivity_slug (a : Activity) (r : StoredActivity)
    (h : serializeActivity a = some r) : r.slug = a.slug := by
  unfold serializeActivity at h
  match ha : a.occured_at with
  | none => rw [ha] at h; cases h
  | some ms =>
    rw [ha] at h
    injection h with h
    subst h
    rfl

theorem serializeActivityBatch_slug_map (l : List Activity) :
    ∀ rows, serializeActivityBatch l = some rows →
      rows.map (fun r => r.slug) = l.map (fun a => a.slug) := by
  induction l with
  | nil =>
    intro rows h
    injection h with h
    subst h
    rfl
  | cons a rest ih =>
    intro rows h
    unfold serializeActivityBatch at h
    match ha : serializeActivity a with
    | none => rw [ha] at h; cases h
    | some r =>
      rw [ha] at h
      match hr : serializeActivityBatch rest with
      | none => rw [hr] at h; cases h
      | some rs =>
        rw [hr] at h
        injection h with h
        subst h
        rw [List.map_cons, List.map_cons, serializeActivity_slug a r ha, ih rs hr]

theorem serializeActivityBatch_length (l : List Activity) :
    ∀ rows, serializeActivityBatch l = some rows → rows.length = l.length := by
  intro rows h
  have := serializeActivityBatch_slug_map l rows h
  have hlen := congrArg List.length this
  simpa using hlen

theorem runActivityBatches_ok (bs : List (List Activity)) :
    ∀ (tbl : List StoredActivity) (rows : List StoredActivity),
      serializeActivityBatch bs.flatten = some rows →
      (rows.map (fun r => r.slug)).Nodup →
      runActivityBatches bs tbl =
        ((rows.foldl insertActivityRow (tbl, 0)).1,
         (rows.foldl insertActivityRow (tbl, 0)).2, false) := by
  induction bs with
  | nil =>
    intro tbl rows h hnd
    injection h with h
    subst h
    rfl
  | cons b rest ih =>
    intro tbl rows h hnd
    rw [List.flatten_cons] at h
    obtain ⟨r1, r2, hr1, hr2, hre⟩ :=
      serializeActivityBatch_append_some b rest.flatten rows h
    subst hre
    rw [List.map_append] at hnd
    have happly : applyActivityBatch tbl b =
        some (r1.foldl insertActivityRow (tbl, 0)) := by
      unfold applyActivityBatch
      rw [hr1]
      show (if (r1.map (fun r => r.slug)).Nodup then
          some (r1.foldl insertActivityRow (tbl, 0)) else none) =
        some (r1.foldl insertActivityRow (tbl, 0))
      rw [if_pos hnd.of_append_left]
    rw [runActivityBatches_cons_some b rest tbl
          (r1.foldl insertActivityRow (tbl, 0)).1
          (r1.foldl insertActivityRow (tbl, 0)).2 (by rw [happly])]
    rw [ih (r1.foldl insertActivityRow (tbl, 0)).1 r2 hr2 hnd.of_append_right]
    rw [List.foldl_append]
    rw [foldl_insertActivityRow_shift r2 (r1.foldl insertActivityRow (tbl, 0))]

/-- C5 (amended): when every record of the collection serializes (its
date is valid) and the collection's slugs are pairwise distinct (so no
statement hits the within-statement double-update error), the chunked
`addActivities` — batches of 1000 issued strictly in order — yields
exactly the final state and total affected count of the hypothetical
single unchunked upsert, and equals the sequential composition of its
per-chunk results. -/
theorem claim5_batch_size_invariance (acts : List Activity)
    (tbl : List StoredActivity)
    (h : ∀ a ∈ acts, (serializeActivity a).isSome = true)
    (hnd : (acts.map (fun a => a.slug)).Nodup) :
    ∃ t n, addActivitiesUnchunked acts tbl = some (t, n) ∧
      addActivities acts tbl = (t, n, false) ∧
      addActivities acts tbl = runActivityBatches (batchArray acts 1000) tbl := by
  obtain ⟨rows, hrows⟩ := serializeActivityBatch_isSome acts h
  have hrnd : (rows.map (fun r => r.slug)).Nodup := by
    rw [serializeActivityBatch_slug_map acts rows hrows]
    exact hnd
  refine ⟨(rows.foldl insertActivityRow (tbl, 0)).1,
          (rows.foldl insertActivityRow (tbl, 0)).2, ?_, ?_, rfl⟩
  · unfold addActivitiesUnchunked
    rw [hrows]
    show (if (rows.map (fun r => r.slug)).Nodup then
        some (rows.foldl insertActivityRow (tbl, 0)) else none) =
      some ((rows.foldl insertActivityRow (tbl, 0)).1,
            (rows.foldl insertActivityRow (tbl, 0)).2)
    rw [if_pos hrnd]
  · unfold addActivities
    apply runActivityBatches_ok
    · rw [batchArray_join acts 1000 (by omega)]
      exact hrows
    · exact hrnd

/-- Witness for C5 at a concrete two-record collection. -/
theorem claim5_batch_size_invariance_witness :
    ∃ t n,
      addActivitiesUnchunked
        [⟨"a-1", "alice", "example_activity", "T1", some 0, none, none, none, none⟩,
         ⟨"a-2", "bob", "example_activity", "T2", some 86400000, none, none, none,
          none⟩] [] = some (t, n) ∧
      addActivities
        [⟨"a-1", "alice", "example_activity", "T1", some 0, none, none, none, none⟩,
         ⟨"a-2", "bob", "example_activity", "T2", some 86400000, none, none, none,
          none⟩] [] = (t, n, false) ∧
      addActivities
        [⟨"a-1", "alice", "example_activity", "T1", some 0, none, none, none, none⟩,
         ⟨"a-2", "bob", "example_activity", "T2", some 86400000, none, none, none,
          none⟩] [] =
        runActivityBatches
          (batchArray
            [⟨"a-1", "alice", "example_activity", "T1", some 0, none, none, none,
              none⟩,
             ⟨"a-2", "bob", "example_activity", "T2", some 86400000, none, none,
              none, none⟩] 1000) [] :=
  claim5_batch_size_invariance
    [⟨"a-1", "alice", "example_activity", "T1", some 0, none, none, none, none⟩,
     ⟨"a-2", "bob", "example_activity", "T2", some 86400000, none, none, none,
      none⟩] [] (by decide) (by decide)

/-! ## C3: characterizing the grouping loop of the aggregation pass -/

/-- First value bound to a key in an association list (the lookup of the
JavaScript `Map` the loop builds, whose keys stay unique). -/
def assocFind (c : String) : List (String × List ℚ) → Option (List ℚ)
  | [] => none
  | e :: es => if e.1 = c then some e.2 else assocFind c es

/-- The numeric metric values of one contributor's rows, in row order:
the reference value the grouping loop must reproduce. -/
def numericOf (c : String) (rows : List MetricRow) : List ℚ :=
  (rows.filter (fun r => r.1 = c)).filterMap (fun r => jsNumber r.2)

theorem assocFind_isSome (c : String) (l : List (String × List ℚ)) :
    (assocFind c l).isSome = l.any (fun e => e.1 = c) := by
  induction l with
  | nil => rfl
  | cons e es ih =>
    unfold assocFind
    by_cases h : e.1 = c
    · rw [if_pos h]
      simp [h]
    · rw [if_neg h]
      simp [h, ih]

theorem assocFind_append (c : String) (l1 l2 : List (String × List ℚ)) :
    assocFind c (l1 ++ l2) =
      match assocFind c l1 with
      | some vs => some vs
      | none => assocFind c l2 := by
  induction l1 with
  | nil => rfl
  | cons e es ih =>
    rw [List.cons_append]
    show (if e.1 = c then some e.2 else assocFind c (es ++ l2)) =
      match (if e.1 = c then some e.2 else assocFind c es) with
      | some vs => some vs
      | none => assocFind c l2
    by_cases h : e.1 = c
    · rw [if_pos h, if_pos h]
    · rw [if_neg h, if_neg h]
      exact ih

theorem assocFind_map_update (c c2 : String) (v : ℚ)
    (l : List (String × List ℚ)) :
    assocFind c (l.map (fun e => if e.1 = c2 then (e.1, e.2 ++ [v]) else e)) =
      (assocFind c l).map (fun vs => if c2 = c then vs ++ [v] else vs) := by
  induction l with
  | nil => rfl
  | cons e es ih =>
    by_cases h2 : e.1 = c2 <;> by_cases hc : e.1 = c
    · have hcc : c2 = c := by rw [← h2, hc]
      simp [assocFind, h2, hc, hcc]
    · have hcc : ¬c2 = c := by rw [← h2]; exact hc
      simp [assocFind, h2, hc, hcc, ih]
    · have hcc : ¬c2 = c := fun h => h2 (hc.trans h.symm)
      have hcc2 : ¬c = c2 := fun h => hcc h.symm
      simp [assocFind, h2, hc, hcc, hcc2]
    · simp [assocFind, h2, hc, ih]

theorem assocFind_addMetric (c c2 : String) (v : ℚ)
    (acc : List (String × List ℚ)) :
    assocFind c (addMetric acc c2 v) =
      if c2 = c then
        match assocFind c acc with
        | some vs => some (vs ++ [v])
        | none => some [v]
      else assocFind c acc := by
  unfold addMetric
  by_cases hany : acc.any (fun e => e.1 = c2) = true
  · rw [if_pos hany, assocFind_map_update]
    by_cases hcc : c2 = c
    · subst hcc
      rw [if_pos rfl]
      have hsome : (assocFind c2 acc).isSome = true := by
        rw [assocFind_isSome]
        exact hany
      match h : assocFind c2 acc with
      | some vs => simp
      | none => rw [h] at hsome; cases hsome
    · rw [if_neg hcc]
      simp [hcc]
  · rw [if_neg hany, assocFind_append]
    by_cases hcc : c2 = c
    · subst hcc
      rw [if_pos rfl]
      have hnone : assocFind c2 acc = none := by
        rw [← Option.not_isSome_iff_eq_none, assocFind_isSome]
        simp [hany]
      rw [hnone]
      simp [assocFind]
    · rw [if_neg hcc]
      match h : assocFind c acc with
      | some vs => rfl
      | none => simp [assocFind, hcc]

theorem assocFind_groupRows_aux (rows : List MetricRow) :
    ∀ (acc : List (String × List ℚ)) (c : String),
      assocFind c (rows.foldl metricStep acc) =
        match assocFind c acc with
        | some us => some (us ++ numericOf c rows)
        | none =>
          if numericOf c rows = [] then none else some (numericOf c rows) := by
  induction rows with
  | nil =>
    intro acc c
    cases h : assocFind c acc <;> simp [numericOf, h]
  | cons r rest ih =>
    intro acc c
    rw [List.foldl_cons]
    match hj : jsNumber r.2 with
    | none =>
      have hstep : metricStep acc r = acc := by
        unfold metricStep
        rw [hj]
      have hnum : numericOf c (r :: rest) = numericOf c rest := by
        unfold numericOf
        by_cases hc : r.1 = c
        · simp [List.filter_cons, hc, List.filterMap_cons, hj]
        · simp [List.filter_cons, hc]
      rw [hstep, ih acc c, hnum]
    | some v =>
      have hstep : metricStep acc r = addMetric acc r.1 v := by
        unfold metricStep
        rw [hj]
      rw [hstep, ih (addMetric acc r.1 v) c, assocFind_addMetric c r.1 v acc]
      by_cases hc : r.1 = c
      · rw [if_pos hc]
        have hnum : numericOf c (r :: rest) = v :: numericOf c rest := by
          unfold numericOf
          simp [List.filter_cons, hc, List.filterMap_cons, hj]
        rw [hnum]
        match h : assocFind c acc with
        | some us => simp
        | none => simp
      · rw [if_neg hc]
        have hnum : numericOf c (r :: rest) = numericOf c rest := by
          unfold numericOf
          simp [List.filter_cons, hc]
        rw [hnum]

theorem assocFind_groupRows (rows : List MetricRow) (c : String) :
    assocFind c (groupRows rows) =
      if numericOf c rows = [] then none else some (numericOf c rows) := by
  unfold groupRows
  rw [assocFind_groupRows_aux rows [] c]
  exact rfl

theorem keys_map_update (l : List (String × List ℚ)) (c : String) (v : ℚ) :
    (l.map (fun e => if e.1 = c then (e.1, e.2 ++ [v]) else e)).map Prod.fst =
      l.map Prod.fst := by
  induction l with
  | nil => rfl
  | cons e es ih => by_cases he : e.1 = c <;> simp [he, ih]

theorem keys_addMetric (acc : List (String × List ℚ)) (c : String) (v : ℚ) :
    (addMetric acc c v).map Prod.fst =
      if acc.any (fun e => e.1 = c) = true then acc.map Prod.fst
      else acc.map Prod.fst ++ [c] := by
  unfold addMetric
  by_cases h : acc.any (fun e => e.1 = c) = true
  · rw [if_pos h, if_pos h, keys_map_update]
  · rw [if_neg h, if_neg h, List.map_append]
    exact rfl

theorem keys_nodup_foldl (rows : List MetricRow) :
    ∀ acc : List (String × List ℚ), (acc.map Prod.fst).Nodup →
      ((rows.foldl metricStep acc).map Prod.fst).Nodup := by
  induction rows with
  | nil => intro acc h; exact h
  | cons r rest ih =>
    intro acc h
    rw [List.foldl_cons]
    apply ih
    match hj : jsNumber r.2 with
    | none =>
      have hstep : metricStep acc r = acc := by
        unfold metricStep
        rw [hj]
      rw [hstep]
      exact h
    | some v =>
      have hstep : metricStep acc r = addMetric acc r.1 v := by
        unfold metricStep
        rw [hj]
      rw [hstep, keys_addMetric]
      by_cases hany : acc.any (fun e => e.1 = r.1) = true
      · rw [if_pos hany]
        exact h
      · rw [if_neg hany]
        have hmem : r.1 ∉ acc.map Prod.fst := by
          intro hm
          apply hany
          rw [List.any_eq_true]
          obtain ⟨e, he, heq⟩ := List.mem_map.mp hm
          exact ⟨e, he, by simp [heq]⟩
        simp [List.nodup_append, h, hmem]

theorem keys_groupRows_nodup (rows : List MetricRow) :
    ((groupRows rows).map Prod.fst).Nodup := by
  unfold groupRows
  exact keys_nodup_foldl rows [] (by simp)

theorem filter_eq_of_nodup (c : String) (l : List (String × List ℚ))
    (h : (l.map Prod.fst).Nodup) :
    l.filter (fun e => e.1 = c) =
      match assocFind c l with
      | some vs => [(c, vs)]
      | none => [] := by
  induction l with
  | nil => rfl
  | cons e es ih =>
    rw [List.map_cons] at h
    have hnd := List.nodup_cons.mp h
    by_cases hc : e.1 = c
    · rw [List.filter_cons_of_pos (by simp [hc])]
      have hno : assocFind c es = none := by
        rw [← Option.not_isSome_iff_eq_none, assocFind_isSome]
        intro hany
        obtain ⟨x, hx, hxe⟩ := List.any_eq_true.mp hany
        apply hnd.1
        rw [List.mem_map]
        refine ⟨x, hx, ?_⟩
        rw [of_decide_eq_true hxe, hc]
      rw [ih hnd.2, hno]
      show e :: (match (none : Option (List ℚ)) with
        | some vs => [(c, vs)]
        | none => ([] : List (String × List ℚ))) =
        match assocFind c (e :: es) with
        | some vs => [(c, vs)]
        | none => []
      have hfind : assocFind c (e :: es) = some e.2 := by
        show (if e.1 = c then some e.2 else assocFind c es) = some e.2
        rw [if_pos hc]
      rw [hfind]
      obtain ⟨e1, e2⟩ := e
      simp only at hc
      rw [hc]
    · rw [List.filter_cons_of_neg (by simp [hc])]
      have hfind : assocFind c (e :: es) = assocFind c es := by
        show (if e.1 = c then some e.2 else assocFind c es) = assocFind c es
        rw [if_neg hc]
      rw [hfind]
      exact ih hnd.2

/-- C3: every contributor with at least one numeric metric value gets
exactly one contributor aggregate, whose value is the arithmetic mean of
that contributor's values rounded half-up; the global aggregate is
produced exactly when at least one value exists, as the rounded mean of
all individual values (not of per-contributor means); and the rounding
sends every half to the next integer up. -/
theorem claim3_aggregate_mean_correctness :
    (∀ (rows : List MetricRow) (c : String),
      (calcExampleMetric rows).1.filter (fun a => a.contributor = c) =
        (if numericOf c rows = [] then []
         else [⟨"example_avg_metric", c,
           mathRound ((numericOf c rows).sum /
             ((numericOf c rows).length : ℚ))⟩])) ∧
    (∀ rows : List MetricRow,
      (calcExampleMetric rows).2 =
        (if allNums rows = [] then none
         else some (mathRound ((allNums rows).sum /
           ((allNums rows).length : ℚ))))) ∧
    (∀ n : ℤ, mathRound ((n : ℚ) + 1 / 2) = n + 1) := by
  refine ⟨?_, ?_, ?_⟩
  · intro rows c
    show ((groupRows rows).map (fun e =>
        (⟨"example_avg_metric", e.1,
          mathRound (e.2.sum / (e.2.length : ℚ))⟩ : ContributorAggregate))).filter
        (fun a => a.contributor = c) = _
    rw [List.filter_map]
    have hpred : ((fun a : ContributorAggregate => decide (a.contributor = c)) ∘
        (fun e : String × List ℚ =>
          (⟨"example_avg_metric", e.1,
            mathRound (e.2.sum / (e.2.length : ℚ))⟩ : ContributorAggregate))) =
        (fun e : String × List ℚ => decide (e.1 = c)) := rfl
    rw [hpred]
    rw [filter_eq_of_nodup c (groupRows rows) (keys_groupRows_nodup rows)]
    rw [assocFind_groupRows rows c]
    by_cases hn : numericOf c rows = []
    · simp [hn]
    · simp [hn]
  · intro rows
    show (if 0 < (allNums rows).length then
        some (mathRound ((allNums rows).sum / ((allNums rows).length : ℚ)))
      else none) = _
    by_cases h : allNums rows = []
    · simp [h]
    · simp [h, List.length_pos]
  · intro n
    unfold mathRound
    have : (n : ℚ) + 1 / 2 + 1 / 2 = ((n + 1 : ℤ) : ℚ) := by
      push_cast
      ring
    rw [this, Int.floor_intCast]

/-! ## The downstream NaN guard of the aggregation loop -/

theorem filterMap_jsNumber_cons_none (r : MetricRow) (l : List MetricRow)
    (h : jsNumber r.2 = none) :
    List.filterMap (fun x : MetricRow => jsNumber x.2) (r :: l) =
      List.filterMap (fun x : MetricRow => jsNumber x.2) l := by
  simp only [List.filterMap_cons, h]

/-- The JS loop taken on its own drops a row whose value converts to NaN:
grouping, means and upserts are exactly those of the run without that
row. In the full pass this guard is dead code — the query's `::numeric`
cast throws on such a value before any row reaches the loop. -/
theorem calcExampleMetric_drops_nan_value (pre post : List MetricRow)
    (c s : String) (h : jsNumber s = none)
    (ctbl : List ContributorAggregate) (gtbl : List GlobalAggregate) :
    calcExampleMetric (pre ++ (c, s) :: post) = calcExampleMetric (pre ++ post) ∧
    runExampleMetricPass (pre ++ (c, s) :: post) ctbl gtbl =
      runExampleMetricPass (pre ++ post) ctbl gtbl := by
  have hstep : ∀ acc, metricStep acc (c, s) = acc := by
    intro acc
    simp only [metricStep, h]
  have hgroup : groupRows (pre ++ (c, s) :: post) = groupRows (pre ++ post) := by
    unfold groupRows
    rw [List.foldl_append, List.foldl_append, List.foldl_cons, hstep]
  have hnums : allNums (pre ++ (c, s) :: post) = allNums (pre ++ post) := by
    unfold allNums
    rw [List.filterMap_append, List.filterMap_append,
        filterMap_jsNumber_cons_none (c, s) post h]
  have hcalc : calcExampleMetric (pre ++ (c, s) :: post) =
      calcExampleMetric (pre ++ post) := by
    unfold calcExampleMetric
    rw [hgroup, hnums]
  refine ⟨hcalc, ?_⟩
  unfold runExampleMetricPass
  rw [hcalc]

/-! ## C6: empty input writes nothing and raises nothing -/

theorem flatMap_eq_nil_of_forall (l : List ActivityCount)
    (f : ActivityCount → List ContributorBadge) (h : ∀ a ∈ l, f a = []) :
    l.flatMap f = [] := by
  induction l with
  | nil => rfl
  | cons a t ih =>
    rw [List.flatMap_cons, h a (List.mem_cons_self a t),
        ih (fun x hx => h x (List.mem_cons_of_mem _ hx))]
    rfl

/-- C6: with zero numeric metric values the aggregation pass computes no
contributor aggregates and a null global average and leaves both
aggregate tables untouched (no placeholder row); with no contributor
meeting any threshold the badge pass constructs an empty batch and is a
no-op returning normally. -/
theorem claim6_empty_input_safety :
    (∀ (rows : List MetricRow) (ctbl : List ContributorAggregate)
        (gtbl : List GlobalAggregate),
      (∀ r ∈ rows, jsNumber r.2 = none) →
      calcExampleMetric rows = ([], none) ∧
      runExampleMetricPass rows ctbl gtbl = (ctbl, gtbl)) ∧
    (∀ (counts : List ActivityCount) (tbl : List StoredBadge),
      (∀ e ∈ counts, ∀ t ∈ thresholds, e.count < t.required) →
      badgesToAward counts = [] ∧
      awardEngagementChampionBadges counts tbl = (tbl, 0, false)) := by
  constructor
  · intro rows ctbl gtbl hall
    have hfold : ∀ (l : List MetricRow) (acc : List (String × List ℚ)),
        (∀ r ∈ l, jsNumber r.2 = none) → l.foldl metricStep acc = acc := by
      intro l
      induction l with
      | nil => intro acc _; rfl
      | cons r rest ih =>
        intro acc hl
        rw [List.foldl_cons]
        have hstep : metricStep acc r = acc := by
          unfold metricStep
          rw [hl r (List.mem_cons_self r rest)]
        rw [hstep]
        exact ih acc (fun x hx => hl x (List.mem_cons_of_mem _ hx))
    have hgroup : groupRows rows = [] := hfold rows [] hall
    have hnums : allNums rows = [] := by
      unfold allNums
      rw [List.filterMap_eq_nil_iff]
      exact hall
    have hcalc : calcExampleMetric rows = ([], none) := by
      unfold calcExampleMetric
      rw [hgroup, hnums]
      rfl
    refine ⟨hcalc, ?_⟩
    unfold runExampleMetricPass
    rw [hcalc]
    rfl
  · intro counts tbl hall
    have hempty : badgesToAward counts = [] := by
      unfold badgesToAward
      apply flatMap_eq_nil_of_forall
      intro e he
      unfold badgesForContributor
      rw [List.filterMap_eq_nil_iff]
      intro t ht
      rw [if_neg (Nat.not_le.mpr (hall e he t ht))]
    refine ⟨hempty, ?_⟩
    unfold awardEngagementChampionBadges
    rw [hempty]
    rfl

/-- Witness for C6 at a concrete malformed row and a concrete
under-threshold contributor. -/
theorem claim6_empty_input_safety_witness :
    (calcExampleMetric [("u", "abc")] = ([], none) ∧
     runExampleMetricPass [("u", "abc")] [] [] = ([], [])) ∧
    (badgesToAward [⟨"u", 5, 0⟩] = [] ∧
     awardEngagementChampionBadges [⟨"u", 5, 0⟩] [] = ([], 0, false)) :=
  ⟨claim6_empty_input_safety.1 [("u", "abc")] [] [] (by decide),
   claim6_empty_input_safety.2 [⟨"u", 5, 0⟩] [] (by decide)⟩

/-! ## C8: an unparseable date is NOT skipped — it aborts the import

The import loop converts every serialized date with `new Date(...)` and
performs no validation; an unparseable string yields an Invalid Date,
and the subsequent upsert's parameter serialization
(`toISOString`) throws on it, aborting the batch instead of skipping the
record. -/

theorem serializeBadgeBatch_none (batch : List ContributorBadge)
    (b : ContributorBadge) (hb : b ∈ batch) (h : serializeBadge b = none) :
    serializeBadgeBatch batch = none := by
  induction batch with
  | nil => cases hb
  | cons x rest ih =>
    unfold serializeBadgeBatch
    rcases List.mem_cons.mp hb with hx | hx
    · subst hx
      rw [h]
    · match hsx : serializeBadge x with
      | none => rfl
      | some r =>
        rw [ih hx]

theorem serializeActivityBatch_none (batch : List Activity) (a : Activity)
    (ha : a ∈ batch) (h : serializeActivity a = none) :
    serializeActivityBatch batch = none := by
  induction batch with
  | nil => cases ha
  | cons x rest ih =>
    unfold serializeActivityBatch
    rcases List.mem_cons.mp ha with hx | hx
    · subst hx
      rw [h]
    · match hsx : serializeActivity x with
      | none => rfl
      | some r =>
        rw [ih hx]

theorem runBadgeBatches_single_none (b : List ContributorBadge)
    (tbl : List StoredBadge) (hb : applyBadgeBatch tbl b = none) :
    runBadgeBatches [b] tbl = (tbl, 0, true) :=
  runBadgeBatches_cons_none b [] tbl hb

theorem runActivityBatches_cons_none (b : List Activity)
    (bs : List (List Activity)) (tbl : List StoredActivity)
    (hb : applyActivityBatch tbl b = none) :
    runActivityBatches (b :: bs) tbl = (tbl, 0, true) := by
  unfold runActivityBatches
  rw [hb]

/-- A record with an unparseable date (as amended from C8): the import
does not skip it — its batch's serialization throws, the whole call
aborts with an error, and none of that batch's records (the unparseable
one or the well-formed ones) is written. Stated for collections of at
most one batch (1000 records), for both the badge import path and the
activity import path. -/
theorem claim8_unparseable_date_aborts_import :
    (∀ (raw : List RawBadge) (tbl : List StoredBadge),
      raw.length ≤ 1000 → (∃ b ∈ raw, jsNewDate b.achieved_on = none) →
      importBadges raw tbl = (tbl, 0, true)) ∧
    (∀ (raw : List RawActivity) (tbl : List StoredActivity),
      raw.length ≤ 1000 → (∃ a ∈ raw, jsNewDate a.occured_at = none) →
      importActivityRecords raw tbl = (tbl, 0, true)) := by
  constructor
  · intro raw tbl hlen hbad
    obtain ⟨b, hbmem, hbdate⟩ := hbad
    unfold importBadges
    have hne : raw.map (fun b : RawBadge =>
        (⟨b.slug, b.badge, b.contributor, b.variant, jsNewDate b.achieved_on,
          b.meta⟩ : ContributorBadge)) ≠ [] := by
      intro hmap
      rw [List.map_eq_nil_iff] at hmap
      subst hmap
      cases hbmem
    unfold upsertContributorBadges
    rw [if_neg (by rw [List.isEmpty_iff]; exact hne)]
    rw [batchArray_small _ 1000 hne (by omega) (by rw [List.length_map]; exact hlen)]
    apply runBadgeBatches_single_none
    have hmem2 : (⟨b.slug, b.badge, b.contributor, b.variant,
        jsNewDate b.achieved_on, b.meta⟩ : ContributorBadge) ∈
        raw.map (fun x : RawBadge =>
          (⟨x.slug, x.badge, x.contributor, x.variant, jsNewDate x.achieved_on,
            x.meta⟩ : ContributorBadge)) :=
      List.mem_map_of_mem _ hbmem
    have hserb : serializeBadge (⟨b.slug, b.badge, b.contributor, b.variant,
        jsNewDate b.achieved_on, b.meta⟩ : ContributorBadge) = none := by
      rw [hbdate]
      rfl
    unfold applyBadgeBatch
    rw [serializeBadgeBatch_none _ _ hmem2 hserb]
    rfl
  · intro raw tbl hlen hbad
    obtain ⟨a, hamem, hadate⟩ := hbad
    unfold importActivityRecords
    by_cases hne : raw.map (fun a : RawActivity =>
        (⟨a.slug, a.contributor, a.activity_definition, a.title,
          jsNewDate a.occured_at, a.link, a.text, a.points, a.meta⟩ : Activity)) = []
    · rw [List.map_eq_nil_iff] at hne
      subst hne
      cases hamem
    · unfold addActivities
      rw [batchArray_small _ 1000 hne (by omega) (by rw [List.length_map]; exact hlen)]
      apply runActivityBatches_cons_none
      have hmem2 : (⟨a.slug, a.contributor, a.activity_definition, a.title,
          jsNewDate a.occured_at, a.link, a.text, a.points, a.meta⟩ : Activity) ∈
          raw.map (fun x : RawActivity =>
            (⟨x.slug, x.contributor, x.activity_definition, x.title,
              jsNewDate x.occured_at, x.link, x.text, x.points,
              x.meta⟩ : Activity)) :=
        List.mem_map_of_mem _ hamem
      have hsera : serializeActivity (⟨a.slug, a.contributor,
          a.activity_definition, a.title, jsNewDate a.occured_at, a.link, a.text,
          a.points, a.meta⟩ : Activity) = none := by
        rw [hadate]
        rfl
      unfold applyActivityBatch
      rw [serializeActivityBatch_none _ _ hmem2 hsera]

/-- Witness for the amended C8 at concrete one-record imports. -/
theorem claim8_unparseable_date_aborts_import_witness :
    importBadges
      [⟨"engagement_champion__bob__bronze", "engagement_champion", "bob",
        "bronze", "not-a-date", none⟩] [] = ([], 0, true) ∧
    importActivityRecords
      [⟨"a-1", "bob", "example_activity", "T", "yesterday", none, none, none,
        none⟩] [] = ([], 0, true) :=
  ⟨claim8_unparseable_date_aborts_import.1
     [⟨"engagement_champion__bob__bronze", "engagement_champion", "bob",
       "bronze", "not-a-date", none⟩] [] (by decide)
     ⟨⟨"engagement_champion__bob__bronze", "engagement_champion", "bob",
       "bronze", "not-a-date", none⟩, by decide, by decide⟩,
   claim8_unparseable_date_aborts_import.2
     [⟨"a-1", "bob", "example_activity", "T", "yesterday", none, none, none,
       none⟩] [] (by decide)
     ⟨⟨"a-1", "bob", "example_activity", "T", "yesterday", none, none, none,
       none⟩, by decide, by decide⟩⟩

/-- Counterexample to C8 as stated: importing a badge file holding one
record with an unparseable `achieved_on` ("not-a-date") followed by one
perfectly well-formed record does not skip the bad record and continue —
the call aborts with an error and stores neither record, in particular
not the well-formed one. -/
theorem claim8_counterexample_unparseable_date_not_skipped :
    jsNewDate "not-a-date" = none ∧
    (jsNewDate "2024-01-15").isSome = true ∧
    importBadges
      [⟨"engagement_champion__bob__bronze", "engagement_champion", "bob",
        "bronze", "not-a-date", none⟩,
       ⟨"engagement_champion__carol__bronze", "engagement_champion", "carol",
        "bronze", "2024-01-15", none⟩] [] = ([], 0, true) ∧
    hasSlug
      (importBadges
        [⟨"engagement_champion__bob__bronze", "engagement_champion", "bob",
          "bronze", "not-a-date", none⟩,
         ⟨"engagement_champion__carol__bronze", "engagement_champion", "carol",
          "bronze", "2024-01-15", none⟩] []).1
      "engagement_champion__carol__bronze" = false := by
  refine ⟨by decide, by decide, by decide, by decide⟩

/-! ## C5 counterexample: chunking is observable once a statement fails

With more than one chunk, a failure in a later chunk (an Invalid Date
throwing during serialization, or a duplicate slug failing the
statement) leaves the earlier chunks' writes in place, while the
hypothetical single unchunked statement stores nothing — so the claimed
state equivalence does not hold for arbitrary collections. -/

theorem insertActivityRow_fst_ne_nil (acc : List StoredActivity × Nat)
    (r : StoredActivity) (h : acc.1 ≠ []) : (insertActivityRow acc r).1 ≠ [] := by
  unfold insertActivityRow
  by_cases hc : acc.1.any (fun o => o.slug = r.slug) = true
  · rw [if_pos hc]
    simp [h]
  · rw [if_neg hc]
    simp

theorem foldl_insertActivityRow_ne_nil (rows : List StoredActivity) :
    ∀ acc : List StoredActivity × Nat, acc.1 ≠ [] →
      (rows.foldl insertActivityRow acc).1 ≠ [] := by
  induction rows with
  | nil => intro acc h; exact h
  | cons r rest ih =>
    intro acc h
    rw [List.foldl_cons]
    exact ih _ (insertActivityRow_fst_ne_nil acc r h)

theorem applyActivityBatch_single_valid (tbl : List StoredActivity)
    (a : Activity) (r : StoredActivity) (h : serializeActivity a = some r) :
    applyActivityBatch tbl [a] = some (insertActivityRow (tbl, 0) r) := by
  have hb : serializeActivityBatch [a] = some [r] := by
    unfold serializeActivityBatch
    rw [h]
    exact rfl
  unfold applyActivityBatch
  rw [hb]
  show (if ([r].map (fun x => x.slug)).Nodup then
      some ([r].foldl insertActivityRow (tbl, 0)) else none) =
    some (insertActivityRow (tbl, 0) r)
  rw [if_pos (by simp)]
  rfl

/-- The i-th record of the counterexample's first chunk: valid date,
slug of i characters (so all thousand slugs are distinct). -/
def chunkProbeActivity (i : Nat) : Activity :=
  ⟨String.mk (List.replicate i 'b'), "alice", "example_activity", "T",
   some 0, none, none, none, none⟩

/-- One thousand valid activity records with pairwise distinct slugs:
exactly the first chunk of the counterexample input. -/
def manyValidActs : List Activity := (List.range 1000).map chunkProbeActivity

/-- A 1001st record whose date is an Invalid Date, so its chunk's
serialization throws. -/
def invalidDateAct : Activity :=
  ⟨"bad-date-slug", "alice", "example_activity", "T", none, none, none, none,
   none⟩

/-- A valid 1001st record re-using the slug of a first-chunk record: a
cross-chunk duplicate, legal per chunk but fatal for the single
statement. -/
def dupSlugAct : Activity :=
  ⟨(chunkProbeActivity 5).slug, "alice", "example_activity", "T2", some 0,
   none, none, none, none⟩

/-- The row `dupSlugAct` serializes to. -/
def dupSlugRow : StoredActivity :=
  ⟨(chunkProbeActivity 5).slug, "alice", "example_activity", "T2",
   toISOFull 0, none, none, none, none⟩

theorem chunkProbeActivity_slug_injective :
    Function.Injective (fun i => (chunkProbeActivity i).slug) := by
  intro i j h
  simp only [chunkProbeActivity] at h
  simpa using congrArg List.length (congrArg String.data h)

theorem manyValidActs_length : manyValidActs.length = 1000 := by
  unfold manyValidActs
  rw [List.length_map, List.length_range]

theorem manyValidActs_slugs_nodup :
    (manyValidActs.map (fun a => a.slug)).Nodup := by
  unfold manyValidActs
  rw [List.map_map]
  exact (List.nodup_range 1000).map chunkProbeActivity_slug_injective

theorem manyValidActs_serialize :
    ∀ a ∈ manyValidActs, (serializeActivity a).isSome = true := by
  intro a ha
  obtain ⟨i, hi, rfl⟩ := List.mem_map.mp ha
  rfl

theorem batchArray_many_plus_one (x : Activity) :
    batchArray (manyValidActs ++ [x]) 1000 = [manyValidActs, [x]] := by
  rw [batchArray_cons_eq _ 1000 (by simp) (by omega)]
  rw [List.take_left' manyValidActs_length, List.drop_left' manyValidActs_length]
  rw [batchArray_small [x] 1000 (by simp) (by omega) (by simp)]

/-- Counterexample to C5 as stated: batch-size invariance fails for
arbitrary collections. With 1000 valid distinct-slug records followed by
one whose date is invalid, the chunked upsert commits the whole first
chunk (final state non-empty, error flagged) while the hypothetical
single unchunked upsert throws during serialization and stores nothing;
with the 1001st record instead a valid duplicate of a first-chunk slug,
the chunked upsert even succeeds (no error, non-empty state) while the
single statement fails on the within-statement double update and stores
nothing. Either way the final stored states differ. -/
theorem claim5_counterexample_chunked_state_differs :
    (addActivitiesUnchunked (manyValidActs ++ [invalidDateAct]) [] = none ∧
     (addActivities (manyValidActs ++ [invalidDateAct]) []).2.2 = true ∧
     (addActivities (manyValidActs ++ [invalidDateAct]) []).1 ≠ []) ∧
    (addActivitiesUnchunked (manyValidActs ++ [dupSlugAct]) [] = none ∧
     (addActivities (manyValidActs ++ [dupSlugAct]) []).2.2 = false ∧
     (addActivities (manyValidActs ++ [dupSlugAct]) []).1 ≠ []) := by
  obtain ⟨rows, hrows⟩ :=
    serializeActivityBatch_isSome manyValidActs manyValidActs_serialize
  have hrnd : (rows.map (fun r => r.slug)).Nodup := by
    rw [serializeActivityBatch_slug_map manyValidActs rows hrows]
    exact manyValidActs_slugs_nodup
  have happly1 : applyActivityBatch [] manyValidActs =
      some (rows.foldl insertActivityRow ([], 0)) := by
    unfold applyActivityBatch
    rw [hrows]
    show (if (rows.map (fun r => r.slug)).Nodup then
        some (rows.foldl insertActivityRow ([], 0)) else none) =
      some (rows.foldl insertActivityRow ([], 0))
    rw [if_pos hrnd]
  have hrowsne : rows ≠ [] := by
    intro h
    have hl := serializeActivityBatch_length manyValidActs rows hrows
    rw [h, manyValidActs_length] at hl
    simp at hl
  have hTne : (rows.foldl insertActivityRow (([] : List StoredActivity), 0)).1 ≠ [] := by
    obtain ⟨r, rest, rfl⟩ := List.exists_cons_of_ne_nil hrowsne
    rw [List.foldl_cons]
    apply foldl_insertActivityRow_ne_nil
    unfold insertActivityRow
    rw [if_neg (by simp)]
    simp
  constructor
  · have happly2 : applyActivityBatch
        (rows.foldl insertActivityRow (([] : List StoredActivity), 0)).1
        [invalidDateAct] = none := rfl
    have hrun : addActivities (manyValidActs ++ [invalidDateAct]) [] =
        ((rows.foldl insertActivityRow (([] : List StoredActivity), 0)).1,
         (rows.foldl insertActivityRow (([] : List StoredActivity), 0)).2 + 0,
         true) := by
      unfold addActivities
      rw [batchArray_many_plus_one invalidDateAct]
      rw [runActivityBatches_cons_some manyValidActs [[invalidDateAct]] []
            (rows.foldl insertActivityRow ([], 0)).1
            (rows.foldl insertActivityRow ([], 0)).2 (by rw [happly1])]
      rw [runActivityBatches_cons_none [invalidDateAct] [] _ happly2]
    refine ⟨?_, ?_, ?_⟩
    · unfold addActivitiesUnchunked
      rw [serializeActivityBatch_none _ invalidDateAct (by simp) rfl]
    · rw [hrun]
    · rw [hrun]
      exact hTne
  · have hdser : serializeActivity dupSlugAct = some dupSlugRow := rfl
    have happly3 := applyActivityBatch_single_valid
      (rows.foldl insertActivityRow (([] : List StoredActivity), 0)).1
      dupSlugAct dupSlugRow hdser
    have hrun2 : addActivities (manyValidActs ++ [dupSlugAct]) [] =
        ((insertActivityRow
            ((rows.foldl insertActivityRow (([] : List StoredActivity), 0)).1, 0)
            dupSlugRow).1,
         (rows.foldl insertActivityRow (([] : List StoredActivity), 0)).2 +
           ((insertActivityRow
              ((rows.foldl insertActivityRow (([] : List StoredActivity), 0)).1,
               0) dupSlugRow).2 + 0),
         false) := by
      unfold addActivities
      rw [batchArray_many_plus_one dupSlugAct]
      rw [runActivityBatches_cons_some manyValidActs [[dupSlugAct]] []
            (rows.foldl insertActivityRow ([], 0)).1
            (rows.foldl insertActivityRow ([], 0)).2 (by rw [happly1])]
      rw [runActivityBatches_cons_some [dupSlugAct] []
            (rows.foldl insertActivityRow ([], 0)).1
            (insertActivityRow
              ((rows.foldl insertActivityRow ([], 0)).1, 0) dupSlugRow).1
            (insertActivityRow
              ((rows.foldl insertActivityRow ([], 0)).1, 0) dupSlugRow).2
            (by rw [happly3])]
      exact rfl
    have hmem5 : (chunkProbeActivity 5).slug ∈ rows.map (fun r => r.slug) := by
      rw [serializeActivityBatch_slug_map manyValidActs rows hrows]
      unfold manyValidActs
      rw [List.map_map]
      exact List.mem_map_of_mem _ (List.mem_range.mpr (by omega))
    have hser_single : serializeActivityBatch [dupSlugAct] = some [dupSlugRow] := by
      unfold serializeActivityBatch
      rw [hdser]
      exact rfl
    have hser_all : serializeActivityBatch (manyValidActs ++ [dupSlugAct]) =
        some (rows ++ [dupSlugRow]) :=
      serializeActivityBatch_append manyValidActs [dupSlugAct] rows [dupSlugRow]
        hrows hser_single
    have hnotnodup : ¬((rows ++ [dupSlugRow]).map (fun r => r.slug)).Nodup := by
      rw [List.map_append]
      intro hnd2
      rw [List.nodup_append] at hnd2
      exact hnd2.2.2 hmem5 (by simp [dupSlugRow])
    refine ⟨?_, ?_, ?_⟩
    · unfold addActivitiesUnchunked
      rw [hser_all]
      show (if ((rows ++ [dupSlugRow]).map (fun r => r.slug)).Nodup then
          some ((rows ++ [dupSlugRow]).foldl insertActivityRow ([], 0))
        else none) = none
      rw [if_neg hnotnodup]
    · rw [hrun2]
    · rw [hrun2]
      exact insertActivityRow_fst_ne_nil _ dupSlugRow hTne

/-! ## C7: the metric query's ::numeric cast, and why the skip never happens

The query of `calculateAndUpsertExampleMetric` is
`SELECT contributor, (meta->>'example_metric')::numeric ... WHERE
activity_definition = 'example_activity' AND meta->>'example_metric' IS
NOT NULL`. The cast runs inside the database: a present but non-numeric
value raises `invalid input syntax for type numeric`, rejecting the whole
`db.query` call, so the JS loop (and its `isNaN` skip guard) never runs. -/

/-- Model of the PostgreSQL `::numeric` cast applied by the metric query
to each present `meta.example_metric` value. It accepts the plain
decimal forms (optional sign, optional fraction, surrounding
whitespace); unlike `Number()`, the empty string is not accepted. `none`
models the cast error, which makes the whole query throw. The special
spellings NaN/Infinity that recent PostgreSQL also accepts into numeric
have no ℚ denotation and are outside this model. -/
def pgNumericCast (s : String) : Option ℚ :=
  match trimChars s.toList with
  | [] => none
  | '-' :: rest => (parseUnsignedNumber rest).map (fun q => -q)
  | '+' :: rest => parseUnsignedNumber rest
  | cs => parseUnsignedNumber cs

/-- The metric query: one input row per activity of kind
`example_activity` whose `meta.example_metric` is present (the WHERE
clause), each value cast with `::numeric`. A single non-numeric value
makes the cast — and hence the whole query — throw (`none`). On success
the driver hands the loop each cast value rendered as a numeric string;
`Number()` parses that rendering to the value the cast produced, exactly
as it parses the original accepted string, so the model keeps the
original rows. -/
def queryExampleMetric : List MetricRow → Option (List MetricRow)
  | [] => some []
  | r :: rest =>
    match pgNumericCast r.2 with
    | none => none
    | some _ => (queryExampleMetric rest).map (fun q => r :: q)

/-- `calculateAndUpsertExampleMetric` end to end: run the query, then —
when it does not throw — the aggregation loop and its conditional
upserts; a cast error propagates and aborts the pass with no writes. -/
def runExampleMetricPassFull (rows : List MetricRow)
    (ctbl : List ContributorAggregate) (gtbl : List GlobalAggregate) :
    Option (List ContributorAggregate × List GlobalAggregate) :=
  (queryExampleMetric rows).map (fun q => runExampleMetricPass q ctbl gtbl)

/-- C7 is wrong about the code: a present but non-numeric
`example_metric` value is not skipped silently. The `::numeric` cast in
the query throws on it, so the whole aggregation pass aborts — the
remaining records are not processed and nothing is written — while the
same input without the malformed row makes the pass complete. Evaluated
at the failing input `[("u","2"), ("u","abc"), ("u","3")]`. -/
theorem claim7_nonnumeric_cast_aborts_pass :
    pgNumericCast "abc" = none ∧
    (pgNumericCast "2").isSome = true ∧
    (pgNumericCast "3").isSome = true ∧
    runExampleMetricPassFull [("u", "2"), ("u", "abc"), ("u", "3")] [] [] =
      none ∧
    (runExampleMetricPassFull [("u", "2"), ("u", "3")] [] []).isSome = true := by
  exact ⟨by decide, by decide, by decide, by decide, by decide⟩
